import Mathlib

/-!
Verification of the `env` package of Cloudment/utils-go.

The development shallowly embeds the package's `.env` tokenizer/file parser
(`file.go` and its helpers) and the tag-driven struct binder
(`env.go`, `options.go`, `cmd` helpers) into Lean.

Conventions of the embedding:
* Go byte slices are `List Nat` (each element is one byte, 0..255); the Go
  `nil` slice is represented by `[]` (the two are observationally
  interchangeable in every code path modelled here, see comments at the
  few places the code compares a slice against `nil`).
* Go functions returning `(..., error)` return an `Option String` error
  component carrying the error message, or `Except String` where the Go
  caller only propagates.
* Go index-returning scanners return `Int` with `-1` for "not found",
  exactly as the source does.
* Go maps are association lists; map assignment conses the new pair in
  front and lookup takes the first match, which reproduces
  last-write-wins map semantics.
-/

set_option maxRecDepth 16000
set_option linter.unusedVariables false

namespace UtilsGoEnv

/-! ## Byte-level constants (options.go) -/

/-- `CharComment = '#'` -/
def CharComment : Nat := 35

/-- `CharSingleQuote = '\''` -/
def CharSingleQuote : Nat := 39

/-- `CharDoubleQuote = '"'` -/
def CharDoubleQuote : Nat := 34

/-! ## Byte scanner (cmd helpers, part_007) -/

/-- Go `unicode.IsSpace` restricted to code points 0..255 (the only values a
byte can take): `'\t' '\n' '\v' '\f' '\r' ' '`, U+0085 (NEL), U+00A0 (NBSP). -/
def unicodeIsSpace (b : Nat) : Bool :=
  b == 9 || b == 10 || b == 11 || b == 12 || b == 13 || b == 32 || b == 133 || b == 160

/-- `isSpace` from part_007: whitespace for the tokenizer's trimming;
deliberately excludes `'\n'` (10). -/
def isSpace (b : Nat) : Bool :=
  b == 9 || b == 11 || b == 12 || b == 13 || b == 32 || b == 133 || b == 160

/-- `indexOfNonSpaceChar`: index of the first byte that is not Unicode
whitespace (per `unicode.IsSpace`), `-1` if all are whitespace. -/
def indexOfNonSpaceChar : List Nat → Int
  | [] => -1
  | c :: rest =>
    if !unicodeIsSpace c then 0
    else
      let r := indexOfNonSpaceChar rest
      if r == -1 then -1 else r + 1

/-- `indexOfChar`: index of the first occurrence of byte `c`, `-1` if absent. -/
def indexOfChar : List Nat → Nat → Int
  | [], _ => -1
  | v :: rest, c =>
    if v == c then 0
    else
      let r := indexOfChar rest c
      if r == -1 then -1 else r + 1

/-- `indexOfChars`: index of the first occurrence of any byte in `cs`. -/
def indexOfChars : List Nat → List Nat → Int
  | [], _ => -1
  | v :: rest, cs =>
    if cs.contains v then 0
    else
      let r := indexOfChars rest cs
      if r == -1 then -1 else r + 1

/-- `hasQuotePrefix` from part_007. -/
def hasQuotePrefix (src : List Nat) : Nat × Bool :=
  match src with
  | [] => (0, false)
  | p :: _ =>
    if p == CharDoubleQuote || p == CharSingleQuote then (p, true) else (0, false)

/-! ## Small byte/string helpers standing in for the `bytes`/`string` stdlib -/

/-- `bytes.TrimLeftFunc`. -/
def bytesTrimLeft (l : List Nat) (f : Nat → Bool) : List Nat :=
  l.dropWhile f

/-- `bytes.TrimRightFunc`. -/
def bytesTrimRight (l : List Nat) (f : Nat → Bool) : List Nat :=
  (l.reverse.dropWhile f).reverse

/-- `bytes.TrimFunc` (both ends). -/
def bytesTrim (l : List Nat) (f : Nat → Bool) : List Nat :=
  bytesTrimLeft (bytesTrimRight l f) f

/-- Go `string(b)` on a byte slice: each byte becomes one character of the
Lean string (an injection; all byte values the tokenizer compares are ASCII). -/
def bytesToString (l : List Nat) : String :=
  String.mk (l.map Char.ofNat)

/-- Inverse embedding used to write concrete byte-slice inputs. -/
def strToBytes (s : String) : List Nat :=
  s.data.map Char.toNat

/-! ## Tokenizer (file.go) -/

/-- The loop of `getStart` from file.go: skip leading whitespace, skip whole
comment lines, return `none` at end of input.  The recursion consumes at
least one byte per comment line, so `fuel = src.length + 1` (supplied by the
wrapper below) always suffices; `fuel = 0` is unreachable from the wrapper. -/
def getStartGo : Nat → List Nat → Option (List Nat)
  | 0, _ => none
  | fuel + 1, src =>
    if indexOfNonSpaceChar src = -1 then none
    else
      if (src.drop (indexOfNonSpaceChar src).toNat).head? ≠ some CharComment then
        some (src.drop (indexOfNonSpaceChar src).toNat)
      else
        if indexOfChar (src.drop (indexOfNonSpaceChar src).toNat) 10 = -1 then none
        else
          getStartGo fuel ((src.drop (indexOfNonSpaceChar src).toNat).drop
            (indexOfChar (src.drop (indexOfNonSpaceChar src).toNat) 10).toNat)

/-- `getStart` from file.go. -/
def getStart (src : List Nat) : Option (List Nat) :=
  getStartGo (src.length + 1) src

/-- `extractKey` from file.go: scan for the first `'='` or `':'`; the bytes
before it (right-trimmed) form the candidate key.  (The source loop skips
`isSpace` bytes with a `continue` that has no effect on which separator is
found first.) -/
def extractKey (src : List Nat) : String × List Nat × Option String :=
  let i := indexOfChars src [61, 58]
  if i = -1 then ("", src, some "key-value separator not found")
  else
    (bytesToString (bytesTrimRight (src.take i.toNat) isSpace), src.drop (i.toNat + 1), none)

/-- Go `unicode.IsLetter c && unicode.IsUpper c` for code points 0..255:
`A`-`Z` plus the uppercase Latin-1 letters À–Ö and Ø–Þ. -/
def goIsUpperLetter (c : Nat) : Bool :=
  (65 ≤ c && c ≤ 90) || (192 ≤ c && c ≤ 214) || (216 ≤ c && c ≤ 222)

/-- `validateKey` from file.go: non-empty and first character an uppercase
letter (`unicode.IsLetter` and `unicode.IsUpper` of the first byte). -/
def validateKey (key : String) : Option String :=
  match key.data with
  | [] => some "invalid key: must start with a capital letter"
  | c :: _ =>
    if goIsUpperLetter c.toNat then none
    else some "invalid key: must start with a capital letter"

/-- `getKey` from file.go. -/
def getKey (src : List Nat) : String × List Nat × Option String :=
  let s := bytesTrimLeft src isSpace
  match extractKey s with
  | (_, remaining, some e) => ("", remaining, some e)
  | (key, remaining, none) =>
    match validateKey key with
    | some e => ("", remaining, some e)
    | none => (key, remaining, none)

/-- The closing-quote scan inside `getValueWithinQuotes`, walking the bytes
from index `i` while remembering the previous byte: find the first index
holding `quote` whose previous byte is not a backslash; `-1` if none. -/
def findClosingQuoteGo (quote prev : Nat) : List Nat → Nat → Int
  | [], _ => -1
  | c :: cs, i =>
    if c == quote && !(prev == 92) then (i : Int)
    else findClosingQuoteGo quote c cs (i + 1)

/-- The source's loop `for i := 1; i < len(src); i++` over `src[i]`,
`src[i-1]`. -/
def findClosingQuote (src : List Nat) (quote : Nat) : Int :=
  match src with
  | [] => -1
  | c0 :: rest => findClosingQuoteGo quote c0 rest 1

/-- `unescapeQuotes` from file.go: `\n`→newline, `\r`→carriage return, any
other `\x`→`x`; a trailing lone backslash is kept. -/
def unescapeQuotes : List Nat → List Nat
  | [] => []
  | 92 :: c :: rest =>
    (if c == 110 then 10 else if c == 114 then 13 else c) :: unescapeQuotes rest
  | c :: rest => c :: unescapeQuotes rest

/-- `getValueWithinQuotes` from file.go. -/
def getValueWithinQuotes (src : List Nat) (quote : Nat) :
    String × List Nat × Option String :=
  let i := findClosingQuote src quote
  if i = -1 then ("", [], some "unterminated closing quote")
  else
    let isQuote : Nat → Bool := fun r => r == quote
    let valueBytes := bytesTrimLeft (bytesTrimRight (src.take i.toNat) isQuote) isQuote
    let value :=
      if quote == CharDoubleQuote then bytesToString (unescapeQuotes valueBytes)
      else bytesToString valueBytes
    (value, src.drop (i.toNat + 1), none)

/-- `findEndOfLine` from file.go. -/
def findEndOfLine (src : List Nat) : Nat :=
  let endOfLine := indexOfChars src [10, 13]
  if endOfLine = -1 then src.length else endOfLine.toNat

/-- The trailing-comment scan inside `extractValueFromLine`, walking the
bytes from index `i` while remembering the previous byte: first index
holding `'#'` whose previous byte is `isSpace`, else the line length
(reached when the walk ends, where `i` equals the length). -/
def findCommentIdxGo (prev : Nat) : List Nat → Nat → Nat
  | [], i => i
  | c :: cs, i =>
    if c == CharComment && isSpace prev then i
    else findCommentIdxGo c cs (i + 1)

/-- The source's loop `for i := 1; i < endOfVar; i++` over `line[i]`,
`line[i-1]`, with `endOfVar` starting at `len(line)`. -/
def findCommentIdx (line : List Nat) : Nat :=
  match line with
  | [] => 0
  | c0 :: rest => findCommentIdxGo c0 rest 1

/-- `extractValueFromLine` from file.go. -/
def extractValueFromLine (line : List Nat) : String :=
  let endOfVar := findCommentIdx line
  bytesToString (bytesTrim (line.take endOfVar) isSpace)

/-- `getValueWithoutQuotes` from file.go. -/
def getValueWithoutQuotes (src : List Nat) : String × List Nat × Option String :=
  let endOfLine := findEndOfLine src
  if endOfLine = 0 then ("", [], none)
  else (extractValueFromLine (src.take endOfLine), src.drop endOfLine, none)

/-- `getValue` from file.go. -/
def getValue (src : List Nat) : String × List Nat × Option String :=
  let q := hasQuotePrefix src
  if q.2 then getValueWithinQuotes src q.1
  else getValueWithoutQuotes src

/-- `getKeyValue` from file.go.  The source's `src == nil` check after
`getKey` is represented by emptiness; the two cases return identical
tuples in every reachable configuration. -/
def getKeyValue (src : List Nat) : String × String × List Nat × Option String :=
  let g := getKey src
  if g.2.1.isEmpty then (g.1, "", g.2.1, g.2.2)
  else if g.2.2.isSome then ("", "", g.2.1, g.2.2)
  else
    let gv := getValue g.2.1
    if gv.2.2.isSome then ("", "", [], gv.2.2)
    else (g.1, gv.1, gv.2.1, none)

/-- The accumulation loop of `parseEnvFileBytes` from file.go: `getStart`,
then `getKeyValue`, abort on the first error, otherwise record the pair
(later assignments win) and continue on the remainder.  Every successful
iteration strictly shrinks the remaining input (proved in
`parseEnvFileBytesLoopGo_fuel` below), so `fuel = src.length + 1` always
suffices and the `fuel = 0` case is unreachable from the wrapper. -/
def parseEnvFileBytesLoopGo : Nat → List (String × String) → List Nat →
    Except String (List (String × String))
  | 0, _, _ => .error "model fuel exhausted"
  | fuel + 1, envMap, src =>
    match getStart src with
    | none => .ok envMap
    | some s =>
      if (getKeyValue s).2.2.2.isSome then .error ((getKeyValue s).2.2.2.getD "")
      else parseEnvFileBytesLoopGo fuel (((getKeyValue s).1, (getKeyValue s).2.1) :: envMap)
        (getKeyValue s).2.2.1

/-- The loop with the fuel supplied by `parseEnvFileBytes`. -/
def parseEnvFileBytesLoop (envMap : List (String × String)) (src : List Nat) :
    Except String (List (String × String)) :=
  parseEnvFileBytesLoopGo (src.length + 1) envMap src

/-- `parseEnvFileBytes` from file.go. -/
def parseEnvFileBytes (src : List Nat) : Except String (List (String × String)) :=
  if src.length = 0 then .error "empty file"
  else parseEnvFileBytesLoop [] src

/-- Each adjacent byte pair `(src[i-1], src[i])` with `src[i]` the quote has
`src[i-1]` a backslash: every quote occurrence after position 0 is escaped. -/
def allQuotesEscaped (quote : Nat) (src : List Nat) : Bool :=
  (src.zip src.tail).all (fun pc => !(pc.2 == quote) || pc.1 == 92)

/-! ## The kind table's numeric parsing (cmd.go `parsers`)

The table delegates to `strconv.ParseInt`/`ParseUint` at an explicit bit
width.  `strconv` decimal parsing is modelled as: optional sign (no sign at
all for unsigned), one or more decimal digits, and a range check against
the requested width. -/

/-- Decimal digits to a number (the accumulation loop of Go `strconv`). -/
def digitsToNat (ds : List Char) : Nat :=
  ds.foldl (fun a c => a * 10 + (c.toNat - 48)) 0

/-- The digit/bounds part of Go `strconv.ParseInt` at width `bitSize`:
the signed range is `[-2^(bitSize-1), 2^(bitSize-1) - 1]`. -/
def goParseDecDigits (neg : Bool) (ds : List Char) (bitSize : Nat) : Except String Int :=
  if ds.isEmpty then .error "invalid syntax"
  else if ds.all Char.isDigit then
    if neg then
      if digitsToNat ds > 2 ^ (bitSize - 1) then .error "value out of range"
      else .ok (-(digitsToNat ds : Int))
    else
      if digitsToNat ds ≥ 2 ^ (bitSize - 1) then .error "value out of range"
      else .ok ((digitsToNat ds : Int))
  else .error "invalid syntax"

/-- Go `strconv.ParseInt(s, 10, bitSize)`: an optional leading sign is
consumed, the rest is parsed as decimal digits. -/
def goParseInt (bitSize : Nat) (s : String) : Except String Int :=
  if s.data.isEmpty then .error "invalid syntax"
  else if s.data.headD ' ' = '-' then goParseDecDigits true s.data.tail bitSize
  else if s.data.headD ' ' = '+' then goParseDecDigits false s.data.tail bitSize
  else goParseDecDigits false s.data bitSize

/-- Go `strconv.ParseUint(s, 10, bitSize)`: no sign permitted, range
`[0, 2^bitSize - 1]`. -/
def goParseUint (bitSize : Nat) (s : String) : Except String Nat :=
  if s.data.isEmpty then .error "invalid syntax"
  else if s.data.all Char.isDigit then
    if digitsToNat s.data ≥ 2 ^ bitSize then .error "value out of range"
    else .ok (digitsToNat s.data)
  else .error "invalid syntax"

/-- `parsers[reflect.Int]` from cmd.go: `strconv.ParseInt(v, 10, 32)` then
`int(i)` — width 32, not the platform int width. -/
def parsersInt (v : String) : Except String Int := goParseInt 32 v

/-- `parsers[reflect.Int8]`: width 8. -/
def parsersInt8 (v : String) : Except String Int := goParseInt 8 v

/-- `parsers[reflect.Int16]`: width 16. -/
def parsersInt16 (v : String) : Except String Int := goParseInt 16 v

/-- `parsers[reflect.Int32]`: width 32. -/
def parsersInt32 (v : String) : Except String Int := goParseInt 32 v

/-- `parsers[reflect.Int64]`: width 64. -/
def parsersInt64 (v : String) : Except String Int := goParseInt 64 v

/-- `parsers[reflect.Uint]` from cmd.go: `strconv.ParseUint(v, 10, 32)`. -/
def parsersUint (v : String) : Except String Nat := goParseUint 32 v

/-- `parsers[reflect.Uint64]`: width 64. -/
def parsersUint64 (v : String) : Except String Nat := goParseUint 64 v

/-! ## `os.Expand` (the Go standard library collaborator of `getRawEnv`) -/

/-- Go `os.Expand`'s shell special variables: `*#$@!?-` and the digits. -/
def isShellSpecialVar (c : Char) : Bool :=
  c == '*' || c == '#' || c == '$' || c == '@' || c == '!' || c == '?' || c == '-' ||
    ('0' ≤ c && c ≤ '9')

/-- Go `os.Expand`'s name characters: underscore, ASCII letters, digits. -/
def isAlphaNum (c : Char) : Bool :=
  c == '_' || ('a' ≤ c && c ≤ 'z') || ('A' ≤ c && c ≤ 'Z') || ('0' ≤ c && c ≤ '9')

/-- First index of a character in a char list. -/
def charIndex : List Char → Char → Option Nat
  | [], _ => none
  | c :: cs, t => if c = t then some 0 else (charIndex cs t).map (· + 1)

/-- The brace scan of Go `getShellName` over the characters after `${`. -/
def braceScan (rest : List Char) : String × Nat :=
  match charIndex rest '}' with
  | none => ("", 1)
  | some 0 => ("", 2)
  | some j => (String.mk (rest.take j), j + 2)

/-- Go `os.Expand`'s `getShellName`, applied to the characters after `$`. -/
def getShellName (s : List Char) : String × Nat :=
  match s with
  | [] => ("", 0)
  | '{' :: rest =>
    (match rest with
     | c1 :: '}' :: _ =>
       if isShellSpecialVar c1 then (String.mk [c1], 3) else braceScan rest
     | _ => braceScan rest)
  | c :: _ =>
    if isShellSpecialVar c then (String.mk [c], 1)
    else
      let run := s.takeWhile isAlphaNum
      (String.mk run, run.length)

/-- Go `os.Expand` over the template's characters: `$` followed by a shell
name is substituted through `f`; a trailing `$` or a `$` followed by a
non-name character stays; bad `${` syntax is consumed silently.  Every
step consumes at least one character, so the template's length bounds the
recursion and serves as its structural measure. -/
def osExpandGo (f : String → String) : Nat → List Char → List Char
  | 0, _ => []
  | _ + 1, [] => []
  | fuel + 1, '$' :: rest =>
    if rest.isEmpty then ['$']
    else
      let nw := getShellName rest
      (if nw.1 = "" && nw.2 > 0 then []
       else if nw.1 = "" then ['$']
       else (f nw.1).data)
      ++ osExpandGo f fuel (rest.drop nw.2)
  | fuel + 1, c :: rest => c :: osExpandGo f fuel rest

/-- `os.Expand`. -/
def osExpand (f : String → String) (s : List Char) : List Char :=
  osExpandGo f s.length s

/-- `os.Expand` on strings. -/
def osExpandStr (s : String) (f : String → String) : String :=
  String.mk (osExpand f s.data)

/-! ## The struct binder (env.go, options.go and the cmd helpers)

Reflection is embedded as a deep model: `Ty` is the shape of a field's Go
type, `FieldD` a struct field with its tags, `Val` a Go value.  The model's
universe holds the shapes the binder treats distinctly: strings, ints
(parsed through the kind table), structs (with the anonymous-type flag
`reflect.Type.Name() == ""` that `handlePointerStruct` tests), pointers,
and slices of structs.  `reflect.Value` mutations become functional
updates; fields of a struct reached through the binder's entry points are
always addressable, so `CanAddr` is true throughout.

The unexported `rawEnvVars` map of `Options` is a reference: copies of an
`Options` value alias one map, so the map's contents are threaded
explicitly (`RawMap`) through the walk, and the flag `rawInit` records
whether the map was non-nil at the top-level call (`defaultOptions`, used
by `Parse`) or nil (a caller-supplied `Options`), in which case
`resolveValue`'s lazily allocated map is local to that one call and its
writes are discarded.

`getRawEnv` recurses through `os.Expand` without a base case; Go diverges
on cyclic references.  `Options.expandFuel` is the model's recursion
budget for it; theorems hold for every sufficient fuel.  Likewise the
binder's nesting recursion (`parseField` → `parseStruct` → `parseField`)
is fuel-indexed by nesting depth. -/

/-- Go map contents as an association list: assignment conses in front,
lookup takes the first match (last write wins). -/
abbrev RawMap := List (String × String)

/-- Go map read returning the value and presence. -/
def lookupEnv (m : List (String × String)) (k : String) : Option String :=
  (m.find? (fun p => p.1 == k)).map (·.2)

mutual
/-- The shape of a bindable Go type. -/
inductive Ty : Type where
  | strT : Ty
  | intT : Ty
  | structT : Bool → List FieldD → Ty
  | ptrT : Ty → Ty
  | sliceStructT : List FieldD → Ty

/-- A struct field: `CanSet` (exported), the `env` tag (`Lookup`), the
`envDefault` tag (`Get`, absent = ""), the `envPrefix` tag (`Lookup`), and
the field's type shape. -/
inductive FieldD : Type where
  | mk : Bool → Option String → String → Option String → Ty → FieldD
end

/-- `CanSet` of the field. -/
def FieldD.canSet : FieldD → Bool
  | .mk c _ _ _ _ => c

/-- The field's `env` tag, when present. -/
def FieldD.envTag : FieldD → Option String
  | .mk _ e _ _ _ => e

/-- The field's `envDefault` tag (absent = ""). -/
def FieldD.defaultTag : FieldD → String
  | .mk _ _ d _ _ => d

/-- The field's `envPrefix` tag, when present. -/
def FieldD.prefixTag : FieldD → Option String
  | .mk _ _ _ p _ => p

/-- The field's type shape. -/
def FieldD.ty : FieldD → Ty
  | .mk _ _ _ _ t => t

/-- A Go value of a bindable shape. -/
inductive Val : Type where
  | vStr : String → Val
  | vInt : Int → Val
  | vStruct : List Val → Val
  | vPtr : Option Val → Val
  | vSlice : List Val → Val

mutual
/-- The zero `Val` of a type shape (`reflect.New(...).Elem()`). -/
def zeroVal : Ty → Val
  | .strT => .vStr ""
  | .intT => .vInt 0
  | .structT _ fs => .vStruct (zeroFields fs)
  | .ptrT _ => .vPtr none
  | .sliceStructT _ => .vSlice []

/-- Zero values of a field list. -/
def zeroFields : List FieldD → List Val
  | [] => []
  | .mk _ _ _ _ t :: fds => zeroVal t :: zeroFields fds
end

/-- The zero struct value over a field list. -/
def zeroStruct (fs : List FieldD) : Val := .vStruct (zeroFields fs)

/-- `FieldTags` from env.go (`Prefix` is never set by `parseFieldTags` and
is omitted). -/
structure FieldTags where
  OwnKey : String := ""
  Key : String := ""
  Default : String := ""
  Required : Bool := false
  Ignored : Bool := false
  Init : Bool := false
  Expand : Bool := false
  Unset : Bool := false
deriving DecidableEq

/-- `Options` from options.go.  `rawInit` and `expandFuel` are model
fields: whether the unexported `rawEnvVars` map was non-nil at the
top-level call, and the recursion budget for `getRawEnv` (see the section
comment). -/
structure Options where
  Env : List (String × String)
  Prefix : String := ""
  rawInit : Bool := false
  expandFuel : Nat := 0

/-- `Options.withPrefix` from options.go. -/
def Options.withPrefix (opts : Options) (fd : FieldD) : Options :=
  { opts with Prefix := opts.Prefix ++ fd.prefixTag.getD "" }

/-- `Options.withSliceEnvPrefix` from options.go: `fmt.Sprintf("%s%d_", ...)`. -/
def Options.withSliceEnvPrefix (opts : Options) (index : Nat) : Options :=
  { opts with Prefix := opts.Prefix ++ toString index ++ "_" }

/-- `getRawEnv` from options.go: read the raw-values map, fall back to the
environment mapping on empty, and expand the result recursively.  The Go
recursion has no base case (it diverges on cyclic references); `fuel`
bounds it in the model, returning "" when exhausted. -/
def getRawEnv (fuel : Nat) (env raw : RawMap) (s : String) : String :=
  match fuel with
  | 0 => ""
  | fuel + 1 =>
    let val := (lookupEnv raw s).getD ""
    let val := if val = "" then (lookupEnv env s).getD "" else val
    osExpandStr val (getRawEnv fuel env raw)

/-- Go `strings.Split` with a one-character separator, over the character
list (`Split("", sep) = [""]`). -/
def splitSepChar (sep : Char) : List Char → List (List Char)
  | [] => [[]]
  | c :: cs =>
    let r := splitSepChar sep cs
    if c = sep then [] :: r
    else
      match r with
      | g :: gs => (c :: g) :: gs
      | [] => [[c]]

/-- Go `strings.Split(s, sep)` for a one-character separator. -/
def stringsSplit (s : String) (sep : Char) : List String :=
  (splitSepChar sep s.data).map String.mk

/-- Go `strings.HasPrefix`. -/
def goStartsWith (s pfx : String) : Bool :=
  pfx.data.isPrefixOf s.data

/-- Go `strings.HasSuffix`. -/
def goEndsWith (s suffix : String) : Bool :=
  suffix.data.isSuffixOf s.data

/-- Go `s[n:]` on a (character) string. -/
def goDropChars (s : String) (n : Nat) : String :=
  String.mk (s.data.drop n)

/-- `ensureTrailingUnderscore` from part_007. -/
def ensureTrailingUnderscore (p : String) : String :=
  if p ≠ "" && !(goEndsWith p "_") then p ++ "_" else p

/-- `strings.SplitN(s, "_", 2)` when it yields two parts. -/
def splitN2Underscore (s : String) : Option (String × String) :=
  match charIndex s.data '_' with
  | none => none
  | some i => some (String.mk (s.data.take i), String.mk (s.data.drop (i + 1)))

/-- `Options.filterPrefixedEnvVars` from options.go: the set of integer
indices `i` such that some environment key has the form
`Prefix ++ i ++ "_" ++ rest` with both parts non-empty and `i` accepted by
`strconv.Atoi` (64-bit parse).  The Go `map[int]bool` becomes the list of
indices found (possibly with duplicates; only membership, emptiness and
maximum are consumed). -/
def Options.filterPrefixedEnvVars (opts : Options) : List Int :=
  opts.Env.filterMap fun kv =>
    if goStartsWith kv.1 opts.Prefix then
      match splitN2Underscore (goDropChars kv.1 opts.Prefix.length) with
      | none => none
      | some (p0, p1) =>
        if p0 = "" || p1 = "" then none
        else (goParseInt 64 p0).toOption
    else none

/-- `findMaxIndex` from part_007: fold starting from 0. -/
def findMaxIndex (idxs : List Int) : Int :=
  idxs.foldl (fun m i => if i > m then i else m) 0

/-- `parseFieldTags` from env.go. -/
def parseFieldTags (fd : FieldD) (opts : Options) : FieldTags :=
  let hasPrefix := fd.prefixTag.isSome
  let env := fd.envTag.getD ""
  let hasEnv := fd.envTag.isSome
  let defaultValue := fd.defaultTag
  let o := stringsSplit env ','
  let ownKey := o.headD ""
  let tags := o.tail
  if (ownKey == "-" || !hasEnv) && !hasPrefix then
    { OwnKey := ownKey, Ignored := true }
  else
    { OwnKey := ownKey
      Key := opts.Prefix ++ ownKey
      Default := defaultValue
      Required := tags.contains "required"
      Expand := tags.contains "expand"
      Init := tags.contains "init"
      Unset := tags.contains "unset" }

/-- `resolveValue` from env.go.  The lazily created map of the
`opts.rawEnvVars == nil` branch lives in this call's copy of `opts` and is
discarded on return; only when `rawInit` holds do the writes reach the
shared map. -/
def resolveValue (tags : FieldTags) (opts : Options) (raw : RawMap) :
    (Except String String) × RawMap :=
  let looked := lookupEnv opts.Env tags.Key
  let val0 := looked.getD ""
  let val1 :=
    if (tags.Key = "" || looked.isNone || val0 = "") && tags.Default ≠ "" then tags.Default
    else val0
  let m := if opts.rawInit then raw else []
  let val2 :=
    if tags.Expand then osExpandStr val1 (getRawEnv opts.expandFuel opts.Env m)
    else val1
  let m2 := (tags.OwnKey, val2) :: m
  let rawOut := if opts.rawInit then m2 else raw
  if tags.Required && (tags.OwnKey = "" || val2 = "") then
    (.error ("required environment variable not set: " ++ tags.Key), rawOut)
  else (.ok val2, rawOut)

/-- `resolvePointer` from part_007 (reached only on non-nil pointers, which
`setField` has already allocated). -/
def resolvePointer (v : Val) (t : Ty) : Val × Ty :=
  match v, t with
  | .vPtr (some w), .ptrT et => (w, et)
  | _, _ => (v, t)

/-- Writing the parsed value back: `applyParser` sets `vp`, which for a
pointer field is `v.Elem()`, so the assignment lands behind the pointer. -/
def setResolved (v : Val) (t : Ty) (parsed : Val) : Val :=
  match v, t with
  | .vPtr (some _), .ptrT _ => .vPtr (some parsed)
  | _, _ => parsed

/-- `applyParser` from env.go over the model universe: the named-type table
(`typeParsers`: Duration, Location) contains none of the modelled shapes;
the kind table has entries for `String` and `Int` (the latter parsing at
width 32, see `parsersInt`); `Struct`, `Ptr` and `Slice` kinds are absent,
yielding `(false, nil)`. -/
def applyParser (vp : Val) (t : Ty) (val : String) : Except String (Option Val) :=
  match t with
  | .strT => .ok (some (.vStr val))
  | .intT =>
    match parsersInt val with
    | .error e => .error ("failed to parse value: " ++ e)
    | .ok n => .ok (some (.vInt n))
  | _ => .ok none

/-- `handleSlice` from cmd.go on a slice-of-structs field: the element type
implements no text-unmarshaling and `getParserFunc` has no parser for a
struct kind. -/
def handleSlice (val : String) : Except String Val :=
  .error "unsupported type"

/-- `handleSpecialTypes` from cmd.go over the model universe (maps are
outside it): a slice dispatches to `handleSlice`, everything else hits the
default branch. -/
def handleSpecialTypes (v : Val) (val : String) : Except String Val :=
  match v with
  | .vSlice _ => handleSlice val
  | _ => .error "unsupported type"

/-- `initialisePointer` from part_007: allocate any nil pointer. -/
def initialisePointer (v : Val) (t : Ty) : Val :=
  match v, t with
  | .vPtr none, .ptrT et => .vPtr (some (zeroVal et))
  | _, _ => v

/-- `isSliceOfStructs` from part_007: the field type, one pointer
unwrapped, is a slice of structs. -/
def isSliceOfStructs (fd : FieldD) : Bool :=
  match fd.ty with
  | .sliceStructT _ => true
  | .ptrT (.sliceStructT _) => true
  | _ => false

/-- The slice-of-structs element fields of a field's type. -/
def sliceStructFields (fd : FieldD) : List FieldD :=
  match fd.ty with
  | .sliceStructT fs => fs
  | .ptrT (.sliceStructT fs) => fs
  | _ => []

/-- `updateReference` from part_007: dereference one pointer, assign when
settable (the `Elem` of a nil pointer is not). -/
def updateReference (v : Val) (result : List Val) : Val :=
  match v with
  | .vPtr (some _) => .vPtr (some (.vSlice result))
  | .vPtr none => .vPtr none
  | _ => .vSlice result

/-- The value computation of `setField` from env.go, after `resolveValue`:
empty value leaves the field untouched; otherwise a nil pointer is
allocated (`asTextUnmarshaler`, part_007 lines 41-43, allocates before its
interface test), the pointer is dereferenced, and the parsed value is
written back. -/
def setFieldGo (v : Val) (fd : FieldD) : Except String String → Except String Val
  | .error e => .error e
  | .ok val =>
    if val = "" then .ok v
    else
      let v1 :=
        match v, fd.ty with
        | .vPtr none, .ptrT et => .vPtr (some (zeroVal et))
        | _, _ => v
      let p := resolvePointer v1 fd.ty
      match applyParser p.1 p.2 val with
      | .error e => .error e
      | .ok (some parsed) => .ok (setResolved v1 fd.ty parsed)
      | .ok none => handleSpecialTypes v1 val

/-- `setField` from env.go.  `handleUnset` (a best-effort `os.Unsetenv`
process side effect) is outside the model; no modelled shape implements
`TextUnmarshaler`.  Every branch of the source returns with the raw-values
map exactly as `resolveValue` left it. -/
def setField (v : Val) (fd : FieldD) (tags : FieldTags) (opts : Options) (raw : RawMap) :
    (Except String Val) × RawMap :=
  let r := resolveValue tags opts raw
  (setFieldGo v fd r.1, r.2)

/-- The field loop of `parseStruct` from env.go, over the struct's field
descriptors and current field values, aborting on the first error.  The
binder recursion enters through the `pf` callback. -/
def parseFields (pf : FieldD → Val → Options → RawMap → (Except String Val) × RawMap) :
    List FieldD → List Val → Options → RawMap → (Except String (List Val)) × RawMap
  | [], _, _, raw => (.ok [], raw)
  | _ :: _, [], _, raw => (.ok [], raw)
  | fd :: fds, w :: ws, opts, raw =>
    match pf fd w opts raw with
    | (.error e, raw1) => (.error e, raw1)
    | (.ok w1, raw1) =>
      match parseFields pf fds ws opts raw1 with
      | (.error e, raw2) => (.error e, raw2)
      | (.ok ws1, raw2) => (.ok (w1 :: ws1), raw2)

/-- `parseStruct` from env.go: dereference one pointer level, require a
struct, and run the field loop (given as `recFields`). -/
def parseStruct
    (recFields : List FieldD → List Val → Options → RawMap → (Except String (List Val)) × RawMap)
    (fs : List FieldD) (v : Val) (opts : Options) (raw : RawMap) :
    (Except String Val) × RawMap :=
  match v with
  | .vStruct vs =>
    (match recFields fs vs opts raw with
     | (.error e, r) => (.error e, r)
     | (.ok vs1, r) => (.ok (.vStruct vs1), r))
  | .vPtr (some (.vStruct vs)) =>
    (match recFields fs vs opts raw with
     | (.error e, r) => (.error e, r)
     | (.ok vs1, r) => (.ok (.vPtr (some (.vStruct vs1))), r))
  | _ => (.error "expected a struct", raw)

/-- `handlePointerStruct` from env.go: a non-nil pointer to a struct, or an
addressable anonymous struct, is bound (through `parseInterface`) before
tag logic, with the prefix extended. -/
def handlePointerStruct
    (recStruct : List FieldD → Val → Options → RawMap → (Except String Val) × RawMap)
    (v : Val) (fd : FieldD) (opts : Options) (raw : RawMap) :
    (Except String Val) × RawMap :=
  match v, fd.ty with
  | .vPtr (some (.vStruct vs)), .ptrT (.structT _ fs) =>
    recStruct fs (.vPtr (some (.vStruct vs))) (opts.withPrefix fd) raw
  | .vStruct vs, .structT true fs =>
    recStruct fs (.vStruct vs) (opts.withPrefix fd) raw
  | _, _ => (.ok v, raw)

/-- The loop of `populateSlice` from cmd.go, building the new slice's
elements for indices `i, i+1, ...` while `count` remain: each element
starts as the zero value, pre-existing elements are copied into their
positions, and every index present in the scanned set is bound recursively
under the indexed prefix. -/
def populateSliceGo (recStruct : Val → Options → RawMap → (Except String Val) × RawMap)
    (zero : Val) (old : List Val) (initialised : Nat) (idxs : List Int) (opts : Options) :
    Nat → Nat → RawMap → (Except String (List Val)) × RawMap
  | _, 0, raw => (.ok [], raw)
  | i, count + 1, raw =>
    let item := if i < initialised then old.getD i zero else zero
    if idxs.contains (i : Int) then
      match recStruct item (opts.withSliceEnvPrefix i) raw with
      | (.error e, raw1) => (.error e, raw1)
      | (.ok item1, raw1) =>
        match populateSliceGo recStruct zero old initialised idxs opts (i + 1) count raw1 with
        | (.error e, raw2) => (.error e, raw2)
        | (.ok rest, raw2) => (.ok (item1 :: rest), raw2)
    else
      match populateSliceGo recStruct zero old initialised idxs opts (i + 1) count raw with
      | (.error e, raw2) => (.error e, raw2)
      | (.ok rest, raw2) => (.ok (item :: rest), raw2)

/-- `v.Kind() == reflect.Ptr` on the slice value inside `initialiseSlice`
(cmd.go). -/
def sliceIsPointer : Val → Bool
  | .vPtr _ => true
  | _ => false

/-- The existing elements of the slice value (`v.Elem()` is untouched for
a pointer, so a pointer contributes none). -/
def sliceOld : Val → List Val
  | .vSlice es => es
  | _ => []

/-- `initialised` from `initialiseSlice` (cmd.go): the existing length,
but 0 for a pointer to a slice. -/
def sliceInit (v : Val) : Nat :=
  if sliceIsPointer v then 0 else (sliceOld v).length

/-- `newLength = findMaxIndex(...) + 1` from `initialiseSlice` (cmd.go). -/
def sliceNewLength (idxs : List Int) : Nat :=
  (findMaxIndex idxs).toNat + 1

/-- `capacity = max(initialised, newLength)` from `initialiseSlice`
(cmd.go). -/
def sliceCapacity (v : Val) (idxs : List Int) : Nat :=
  if sliceInit v > sliceNewLength idxs then sliceInit v else sliceNewLength idxs

/-- `parseSliceOfStructs` from cmd.go with `initialiseSlice` decomposed
into the length computations above: ensure the trailing underscore, scan
for indexed keys, return untouched when none match, build a slice of
length `max(existing length, max index + 1)` with pre-existing elements
copied, bind every present index under the indexed prefix, and write the
result back through `updateReference`. -/
def parseSliceOfStructs (recStructFs : Val → Options → RawMap → (Except String Val) × RawMap)
    (fs : List FieldD) (v : Val) (opts0 : Options) (raw : RawMap) :
    (Except String Val) × RawMap :=
  let opts := { opts0 with Prefix := ensureTrailingUnderscore opts0.Prefix }
  let prefixedEnvMap := opts.filterPrefixedEnvVars
  if prefixedEnvMap.isEmpty then (.ok v, raw)
  else
    match populateSliceGo recStructFs (zeroStruct fs) (sliceOld v) (sliceInit v)
        prefixedEnvMap opts 0 (sliceCapacity v prefixedEnvMap) raw with
    | (.error e, raw1) => (.error e, raw1)
    | (.ok result, raw1) => (.ok (updateReference v result), raw1)

/-- `handleStructOrSlice` from env.go, checks in source order: non-nil
pointer to struct (bind again), struct (always addressable here), slice of
structs by field type, then the `Init`-gated nil-pointer allocation. -/
def handleStructOrSlice
    (recStruct : List FieldD → Val → Options → RawMap → (Except String Val) × RawMap)
    (recSlice : List FieldD → Val → Options → RawMap → (Except String Val) × RawMap)
    (v : Val) (fd : FieldD) (opts : Options) (tags : FieldTags) (raw : RawMap) :
    (Except String Val) × RawMap :=
  match v, fd.ty with
  | .vPtr (some (.vStruct vs)), .ptrT (.structT _ fs) =>
    recStruct fs (.vPtr (some (.vStruct vs))) (opts.withPrefix fd) raw
  | .vStruct vs, .structT _ fs =>
    recStruct fs (.vStruct vs) (opts.withPrefix fd) raw
  | _, _ =>
    if isSliceOfStructs fd then
      recSlice (sliceStructFields fd) v (opts.withPrefix fd) raw
    else
      let invalidPtr := match v with | .vPtr none => true | _ => false
      if tags.Init && invalidPtr then
        (.ok (match fd.ty with
              | .ptrT et => Val.vPtr (some (zeroVal et))
              | _ => v), raw)
      else (.ok v, raw)

/-- `parseField` from env.go, fuel-indexed by nesting depth (each
`parseField → parseStruct` descent consumes one unit; the structure of a
Go value is finite, so ample fuel reproduces the source exactly):
`handlePointerStruct` first, then tag resolution and the ignore check,
`setField`, the unconditional `initialisePointer`, and
`handleStructOrSlice`. -/
def parseField : Nat → FieldD → Val → Options → RawMap → (Except String Val) × RawMap
  | 0, _, _, _, raw => (.error "model fuel exhausted", raw)
  | fuel + 1, fd, v, opts, raw =>
    if !fd.canSet then (.ok v, raw)
    else
      match handlePointerStruct (parseStruct (parseFields (parseField fuel))) v fd opts raw with
      | (.error e, raw1) => (.error e, raw1)
      | (.ok v1, raw1) =>
        let tags := parseFieldTags fd opts
        if tags.Ignored then (.ok v1, raw1)
        else
          match setField v1 fd tags opts raw1 with
          | (.error e, raw2) => (.error e, raw2)
          | (.ok v2, raw2) =>
            let v3 := initialisePointer v2 fd.ty
            handleStructOrSlice (parseStruct (parseFields (parseField fuel)))
              (fun fs => parseSliceOfStructs (parseStruct (parseFields (parseField fuel)) fs) fs)
              v3 fd opts tags raw2

/-- The field loop at a given fuel. -/
def parseFieldsM (fuel : Nat) :
    List FieldD → List Val → Options → RawMap → (Except String (List Val)) × RawMap :=
  parseFields (parseField fuel)

/-- `parseStruct` at a given fuel. -/
def parseStructM (fuel : Nat) (fs : List FieldD) (v : Val) (opts : Options) (raw : RawMap) :
    (Except String Val) × RawMap :=
  parseStruct (parseFieldsM fuel) fs v opts raw

/-- `parseSliceOfStructs` at a given fuel. -/
def parseSliceOfStructsM (fuel : Nat) (fs : List FieldD) (v : Val) (opts : Options)
    (raw : RawMap) : (Except String Val) × RawMap :=
  parseSliceOfStructs (parseStructM fuel fs) fs v opts raw

mutual
/-- No field reachable through the type shape carries the `expand` tag
option (the only way `resolveValue` ever reads the shared raw-values
map). -/
def noExpandTy : Ty → Bool
  | .strT => true
  | .intT => true
  | .structT _ fs => noExpandFields fs
  | .ptrT t => noExpandTy t
  | .sliceStructT fs => noExpandFields fs

/-- The field's own `env` tag carries no `expand` option, and neither does
any field reachable through its type. -/
def noExpandFD : FieldD → Bool
  | .mk _ e _ _ t =>
    !((stringsSplit (e.getD "") ',').tail.contains "expand") && noExpandTy t

/-- `noExpandFD` over a field list. -/
def noExpandFields : List FieldD → Bool
  | [] => true
  | fd :: fds => noExpandFD fd && noExpandFields fds
end


/-! ## Theorems: scanner and tokenizer lemmas -/

/-- Bounds for the index scanner: the result is `-1` or a valid index. -/
theorem indexOfChar_neg_or_lt (src : List Nat) (c : Nat) :
    indexOfChar src c = -1 ∨
      (0 ≤ indexOfChar src c ∧ (indexOfChar src c).toNat < src.length) := by
  induction src with
  | nil => left; rfl
  | cons v rest ih =>
    rw [indexOfChar]
    by_cases h : (v == c) = true
    · rw [if_pos h]
      right
      exact ⟨le_refl 0, by simp⟩
    · rw [if_neg h]
      rcases ih with h1 | h1
      · left
        simp [h1]
      · right
        have h2 : ¬ ((indexOfChar rest c == -1) = true) := by
          simp only [beq_iff_eq]
          omega

        rw [if_neg h2]
        refine ⟨by omega, ?_⟩
        simp only [List.length_cons]
        omega

/-- If `indexOfChar` returns 0 the head is `c`. -/
theorem indexOfChar_zero_head (l : List Nat) (c : Nat)
    (h : indexOfChar l c = 0) : l.head? = some c := by
  cases l with
  | nil => simp [indexOfChar] at h
  | cons v rest =>
    rw [indexOfChar] at h
    by_cases hv : (v == c) = true
    · have hvc : v = c := by simpa using hv
      simp [hvc]
    · rw [if_neg hv] at h
      by_cases hr : (indexOfChar rest c == -1) = true
      · rw [if_pos hr] at h
        exact absurd h (by norm_num)
      · rw [if_neg hr] at h
        have h3 : ¬ indexOfChar rest c = -1 := by simpa using hr
        rcases indexOfChar_neg_or_lt rest c with h4 | h4
        · exact absurd h4 h3
        · omega

/-- Bounds for `indexOfNonSpaceChar`: `-1` or a valid index. -/
theorem indexOfNonSpaceChar_neg_or_lt (src : List Nat) :
    indexOfNonSpaceChar src = -1 ∨
      (0 ≤ indexOfNonSpaceChar src ∧ (indexOfNonSpaceChar src).toNat < src.length) := by
  induction src with
  | nil => left; rfl
  | cons v rest ih =>
    rw [indexOfNonSpaceChar]
    by_cases h : (!unicodeIsSpace v) = true
    · rw [if_pos h]
      right
      exact ⟨le_refl 0, by simp⟩
    · rw [if_neg h]
      rcases ih with h1 | h1
      · left
        simp [h1]
      · right
        have h2 : ¬ ((indexOfNonSpaceChar rest == -1) = true) := by
          simp only [beq_iff_eq]
          omega
        rw [if_neg h2]
        refine ⟨by omega, ?_⟩
        simp only [List.length_cons]
        omega

/-- Bounds for `indexOfChars`: `-1` or a valid index. -/
theorem indexOfChars_neg_or_lt (src : List Nat) (cs : List Nat) :
    indexOfChars src cs = -1 ∨
      (0 ≤ indexOfChars src cs ∧ (indexOfChars src cs).toNat < src.length) := by
  induction src with
  | nil => left; rfl
  | cons v rest ih =>
    rw [indexOfChars]
    by_cases h : (cs.contains v) = true
    · rw [if_pos h]
      right
      exact ⟨le_refl 0, by simp⟩
    · rw [if_neg h]
      rcases ih with h1 | h1
      · left
        simp [h1]
      · right
        have h2 : ¬ ((indexOfChars rest cs == -1) = true) := by
          simp only [beq_iff_eq]
          omega
        rw [if_neg h2]
        refine ⟨by omega, ?_⟩
        simp only [List.length_cons]
        omega


/-- The step of `getStart` that jumps past a comment line strictly shrinks
the input. -/
theorem getStart_step_lt (src : List Nat)
    (hc : (src.drop (indexOfNonSpaceChar src).toNat).head? = some CharComment)
    (hp : ¬ indexOfChar (src.drop (indexOfNonSpaceChar src).toNat) 10 = -1) :
    ((src.drop (indexOfNonSpaceChar src).toNat).drop
      (indexOfChar (src.drop (indexOfNonSpaceChar src).toNat) 10).toNat).length
      < src.length := by
  have hs : src.drop (indexOfNonSpaceChar src).toNat ≠ [] := by
    intro hnil
    rw [hnil] at hc
    simp at hc
  have hspos : 0 < (src.drop (indexOfNonSpaceChar src).toNat).length :=
    List.length_pos.mpr hs
  have hnz : indexOfChar (src.drop (indexOfNonSpaceChar src).toNat) 10 ≠ 0 := by
    intro h0
    have := indexOfChar_zero_head _ _ h0
    rw [hc] at this
    simp [CharComment] at this
  have hbound := indexOfChar_neg_or_lt (src.drop (indexOfNonSpaceChar src).toNat) 10
  simp only [List.length_drop] at *
  rcases hbound with hb | hb
  · exact absurd hb hp
  · omega


/-- Whatever `getStartGo` returns is non-empty and no longer than its
input, at any fuel. -/
theorem getStartGo_some_len : ∀ (fuel : Nat) (src s : List Nat),
    getStartGo fuel src = some s → 0 < s.length ∧ s.length ≤ src.length := by
  intro fuel
  induction fuel with
  | zero =>
    intro src s h
    rw [getStartGo] at h
    exact absurd h (by simp)
  | succ n ih =>
    intro src s h
    rw [getStartGo] at h
    by_cases h1 : indexOfNonSpaceChar src = -1
    · rw [if_pos h1] at h
      exact absurd h (by simp)
    · rw [if_neg h1] at h
      by_cases h2 : (src.drop (indexOfNonSpaceChar src).toNat).head? ≠ some CharComment
      · rw [if_pos h2] at h
        have hs : s = src.drop (indexOfNonSpaceChar src).toNat := (Option.some_inj.mp h).symm
        rcases indexOfNonSpaceChar_neg_or_lt src with hb | hb
        · exact absurd hb h1
        · subst hs
          constructor
          · simp only [List.length_drop]
            omega
          · simp [List.length_drop]
      · rw [if_neg h2] at h
        by_cases h3 : indexOfChar (src.drop (indexOfNonSpaceChar src).toNat) 10 = -1
        · rw [if_pos h3] at h
          exact absurd h (by simp)
        · rw [if_neg h3] at h
          have hrec := ih _ s h
          have hlt := getStart_step_lt src (not_not.mp h2) h3
          exact ⟨hrec.1, by omega⟩

/-- Whatever `getStart` returns is non-empty and no longer than its input. -/
theorem getStart_some_len (src s : List Nat) (h : getStart src = some s) :
    0 < s.length ∧ s.length ≤ src.length :=
  getStartGo_some_len _ src s h

/-- `getStartGo` is fuel-independent once the fuel exceeds the input
length: the wrapper's `src.length + 1` is always enough. -/
theorem getStartGo_fuel : ∀ (f₁ f₂ : Nat) (src : List Nat),
    src.length < f₁ → src.length < f₂ → getStartGo f₁ src = getStartGo f₂ src := by
  intro f₁
  induction f₁ with
  | zero =>
    intro f₂ src h1 _
    omega
  | succ n ih =>
    intro f₂ src h1 h2
    cases f₂ with
    | zero => omega
    | succ m =>
      rw [getStartGo]
      conv_rhs => rw [getStartGo]
      by_cases hc1 : indexOfNonSpaceChar src = -1
      · rw [if_pos hc1, if_pos hc1]
      · rw [if_neg hc1, if_neg hc1]
        by_cases hc2 : (src.drop (indexOfNonSpaceChar src).toNat).head? ≠ some CharComment
        · rw [if_pos hc2, if_pos hc2]
        · rw [if_neg hc2, if_neg hc2]
          by_cases hc3 : indexOfChar (src.drop (indexOfNonSpaceChar src).toNat) 10 = -1
          · rw [if_pos hc3, if_pos hc3]
          · rw [if_neg hc3, if_neg hc3]
            have hlt := getStart_step_lt src (not_not.mp hc2) hc3
            exact ih m _ (by omega) (by omega)


/-- A successful `extractKey` strictly shrinks the input. -/
theorem extractKey_rem_lt (t : List Nat) (h : (extractKey t).2.2 = none) :
    (extractKey t).2.1.length < t.length := by
  rw [extractKey] at h ⊢
  by_cases hi : indexOfChars t [61, 58] = -1
  · rw [if_pos hi] at h
    simp at h
  · rw [if_neg hi] at h ⊢
    rcases indexOfChars_neg_or_lt t [61, 58] with hb | hb
    · exact absurd hb hi
    · simp only [List.length_drop]
      omega

/-- A successful `getKey` strictly shrinks the input. -/
theorem getKey_rem_lt (src : List Nat) (h : (getKey src).2.2 = none) :
    (getKey src).2.1.length < src.length := by
  rw [getKey] at h ⊢
  rcases hek : extractKey (bytesTrimLeft src isSpace) with ⟨key, remaining, err⟩
  have htr : (bytesTrimLeft src isSpace).length ≤ src.length := by
    simpa [bytesTrimLeft] using
      (List.IsSuffix.sublist (List.dropWhile_suffix (l := src) (fun b => isSpace b))).length_le
  rcases err with _ | e
  · rcases hvk : validateKey key with _ | e2
    · simp only [hek, hvk] at h ⊢
      have := extractKey_rem_lt (bytesTrimLeft src isSpace) (by rw [hek])
      rw [hek] at this
      simp only at this
      omega
    · simp [hek, hvk] at h
  · simp [hek] at h

/-- `getValue` never grows the input. -/
theorem getValue_rem_le (u : List Nat) : (getValue u).2.1.length ≤ u.length := by
  rw [getValue]
  by_cases hq : (hasQuotePrefix u).2 = true
  · rw [if_pos hq, getValueWithinQuotes]
    by_cases hi : findClosingQuote u (hasQuotePrefix u).1 = -1
    · rw [if_pos hi]
      simp
    · rw [if_neg hi]
      simp only [List.length_drop]
      omega
  · rw [if_neg hq, getValueWithoutQuotes]
    by_cases he : findEndOfLine u = 0
    · rw [if_pos he]
      simp
    · rw [if_neg he]
      simp only [List.length_drop]
      omega

/-- A successful `getKeyValue` on non-empty input strictly shrinks it. -/
theorem getKeyValue_rem_lt (s : List Nat) (hpos : 0 < s.length)
    (hnone : (getKeyValue s).2.2.2 = none) : (getKeyValue s).2.2.1.length < s.length := by
  rw [getKeyValue] at hnone ⊢
  by_cases h1 : (getKey s).2.1.isEmpty = true
  · rw [if_pos h1] at hnone ⊢
    simp only
    have : (getKey s).2.1.length = 0 := by
      simpa [List.isEmpty_iff] using h1
    omega
  · rw [if_neg h1] at hnone ⊢
    by_cases h2 : (getKey s).2.2.isSome = true
    · rw [if_pos h2] at hnone
      simp only at hnone
      rw [hnone] at h2
      simp at h2
    · rw [if_neg h2] at hnone ⊢
      have hkeynone : (getKey s).2.2 = none := Option.not_isSome_iff_eq_none.mp (by simpa using h2)
      have hklt := getKey_rem_lt s hkeynone
      have hvle := getValue_rem_le (getKey s).2.1
      by_cases h3 : (getValue (getKey s).2.1).2.2.isSome = true
      · rw [if_pos h3] at hnone
        simp only at hnone
        rw [hnone] at h3
        simp at h3
      · rw [if_neg h3] at hnone ⊢
        simp only
        omega

/-- The parse loop is fuel-independent once the fuel exceeds the input
length: the wrapper's `src.length + 1` is always enough, and the
fuel-exhaustion branch of `parseEnvFileBytesLoopGo` is unreachable from
`parseEnvFileBytes`. -/
theorem parseEnvFileBytesLoopGo_fuel : ∀ (f₁ f₂ : Nat) (envMap : List (String × String))
    (src : List Nat), src.length < f₁ → src.length < f₂ →
    parseEnvFileBytesLoopGo f₁ envMap src = parseEnvFileBytesLoopGo f₂ envMap src := by
  intro f₁
  induction f₁ with
  | zero =>
    intro f₂ e src h1 _
    omega
  | succ n ih =>
    intro f₂ e src h1 h2
    cases f₂ with
    | zero => omega
    | succ m =>
      rw [parseEnvFileBytesLoopGo]
      conv_rhs => rw [parseEnvFileBytesLoopGo]
      cases hgs : getStart src with
      | none => rfl
      | some s =>
        simp only
        by_cases he : (getKeyValue s).2.2.2.isSome = true
        · rw [if_pos he, if_pos he]
        · rw [if_neg he, if_neg he]
          have hs := getStart_some_len src s hgs
          have hlt := getKeyValue_rem_lt s hs.1
            (Option.not_isSome_iff_eq_none.mp (by simpa using he))
          exact ih m _ _ (by omega) (by omega)


/-! ## Claim C5: `indexOfNonSpaceChar` and the newline byte -/

/-- **C5, counterexample.**  The claim says that when the first byte that is
not one of the other whitespace characters is `'\n'` (10), the scan returns
that newline's index.  On `[10, 65]` the newline sits at index 0, yet the
function returns 1: `'\n'` satisfies `unicode.IsSpace` and is skipped. -/
theorem c5_counterexample :
    unicodeIsSpace 10 = true ∧ indexOfNonSpaceChar [10, 65] = 1 ∧
      indexOfNonSpaceChar [10, 65] ≠ 0 := by
  decide

/-- **C5, amended.**  `indexOfNonSpaceChar` returns the index of the first
byte that is not Unicode whitespace, where the newline byte counts as
skippable whitespace (`unicode.IsSpace '\n' = true`) rather than as a stop
character: every byte before the returned index, newline included, is
Unicode whitespace. -/
theorem c5_amended :
    (∀ (src : List Nat) (n : Nat), indexOfNonSpaceChar src = (n : Int) →
      n < src.length ∧ unicodeIsSpace (src.getD n 0) = false ∧
        ∀ m, m < n → unicodeIsSpace (src.getD m 0) = true)
    ∧ unicodeIsSpace 10 = true := by
  constructor
  · intro src
    induction src with
    | nil =>
      intro n h
      rw [indexOfNonSpaceChar] at h
      omega
    | cons v rest ih =>
      intro n h
      rw [indexOfNonSpaceChar] at h
      by_cases hv : (!unicodeIsSpace v) = true
      · rw [if_pos hv] at h
        have hn : n = 0 := by omega
        subst hn
        refine ⟨by simp, by simpa using hv, ?_⟩
        intro m hm
        omega
      · rw [if_neg hv] at h
        have hvs : unicodeIsSpace v = true := by simpa using hv
        by_cases hr : (indexOfNonSpaceChar rest == -1) = true
        · rw [if_pos hr] at h
          omega
        · rw [if_neg hr] at h
          have hrne : ¬ indexOfNonSpaceChar rest = -1 := by simpa using hr
          rcases indexOfNonSpaceChar_neg_or_lt rest with hb | hb
          · exact absurd hb hrne
          · obtain ⟨m, rfl⟩ : ∃ m, n = m + 1 := ⟨n - 1, by omega⟩
            have hrest : indexOfNonSpaceChar rest = (m : Int) := by omega
            obtain ⟨ih1, ih2, ih3⟩ := ih m hrest
            refine ⟨by simp only [List.length_cons]; omega, by simpa using ih2, ?_⟩
            intro j hj
            cases j with
            | zero => simpa using hvs
            | succ k => simpa using ih3 k (by omega)
  · decide

/-- **C5, witness.**  The amended statement at `[10, 65]`: the scan lands on
index 1 (`'A'`), having skipped the newline as whitespace. -/
theorem c5_witness :
    unicodeIsSpace ([10, 65].getD 1 0) = false ∧
      unicodeIsSpace ([10, 65].getD 0 0) = true :=
  ⟨(c5_amended.1 [10, 65] 1 (by decide)).2.1,
   (c5_amended.1 [10, 65] 1 (by decide)).2.2 0 (by decide)⟩

/-! ## Claim C6: key validation -/

/-- **C6.**  Key validation succeeds exactly when the extracted key is
non-empty and its first character is an uppercase letter; a line whose
extracted key fails validation makes `getKey` fail, and the whole file
parse of `"key=value"` fails with the invalid-key input error. -/
theorem c6_validateKey :
    (∀ key : String, validateKey key = none ↔
      (key.data ≠ [] ∧ goIsUpperLetter (key.data.headD (Char.ofNat 0)).toNat = true))
    ∧ (∀ src : List Nat, (extractKey (bytesTrimLeft src isSpace)).2.2 = none →
        validateKey (extractKey (bytesTrimLeft src isSpace)).1 ≠ none →
        ((getKey src).2.2).isSome = true)
    ∧ parseEnvFileBytes (strToBytes "key=value") =
        .error "invalid key: must start with a capital letter" := by
  refine ⟨?_, ?_, ?_⟩
  · intro key
    rcases hk : key.data with _ | ⟨c, cs⟩
    · simp [validateKey, hk]
    · simp only [validateKey, hk]
      by_cases hc : goIsUpperLetter c.toNat = true
      · rw [if_pos hc]
        simp [hc]
      · rw [if_neg hc]
        simp [hc]
  · intro src h1 h2
    rw [getKey]
    rcases hek : extractKey (bytesTrimLeft src isSpace) with ⟨k, rem, err⟩
    rw [hek] at h1 h2
    simp only at h1 h2
    subst h1
    rcases hv : validateKey k with _ | e
    · exact absurd hv h2
    · simp [hv]
  · rfl

/-- **C6, witness.**  `validateKey` accepts `"FOO"`, and `getKey` on the
line `key=value` (lowercase key) reports an error. -/
theorem c6_witness :
    validateKey "FOO" = none ∧ ((getKey (strToBytes "key=value")).2.2).isSome = true :=
  ⟨(c6_validateKey.1 "FOO").mpr ⟨by decide, by decide⟩,
   c6_validateKey.2.1 (strToBytes "key=value") (by decide) (by decide)⟩

/-! ## Claim C7: escape handling inside quoted values -/

/-- **C7.**  Inside double-quoted values the tokenizer unescapes `\n` to
newline (10), `\r` to carriage return (13), `\\` to a literal backslash,
and any other `\x` to `x`; single-quoted values undergo no unescaping
(tokenizing `FOO='a\nb'` keeps the two bytes `\` `n` literally); and
tokenizing the line `FOO="escaped\"bar"` succeeds with key `FOO` and value
`escaped"bar`. -/
theorem c7_unescaping :
    (∀ bs : List Nat, unescapeQuotes (92 :: 110 :: bs) = 10 :: unescapeQuotes bs)
    ∧ (∀ bs : List Nat, unescapeQuotes (92 :: 114 :: bs) = 13 :: unescapeQuotes bs)
    ∧ (∀ bs : List Nat, unescapeQuotes (92 :: 92 :: bs) = 92 :: unescapeQuotes bs)
    ∧ (∀ (b : Nat) (bs : List Nat), b ≠ 110 → b ≠ 114 →
        unescapeQuotes (92 :: b :: bs) = b :: unescapeQuotes bs)
    ∧ getKeyValue (strToBytes "FOO='a\\nb'") = ("FOO", "a\\nb", [], none)
    ∧ getKeyValue (strToBytes "FOO=\"escaped\\\"bar\"") =
        ("FOO", "escaped\"bar", [], none) := by
  refine ⟨fun bs => rfl, fun bs => rfl, fun bs => rfl, ?_, by decide, by decide⟩
  intro b bs h1 h2
  show (if b == 110 then 10 else if b == 114 then 13 else b) :: unescapeQuotes bs = _
  rw [if_neg (by simpa using h1), if_neg (by simpa using h2)]

/-- **C7, witness.**  The generic `\x`→`x` rule applied to `x := '"'` (34),
chained after a `\n` unescape. -/
theorem c7_witness :
    unescapeQuotes (92 :: 110 :: [92, 34]) = 10 :: 34 :: [] := by
  rw [c7_unescaping.1, c7_unescaping.2.2.2.1 34 [] (by decide) (by decide)]
  rfl

/-! ## Claim C10: escaped backslash before a closing quote -/


/-- If every occurrence of the quote byte along the walk is immediately
preceded by a backslash, the closing-quote scan finds nothing. -/
theorem findClosingQuoteGo_all_escaped (quote : Nat) :
    ∀ (prev : Nat) (cs : List Nat) (i : Nat),
      allQuotesEscaped quote (prev :: cs) = true →
      findClosingQuoteGo quote prev cs i = -1 := by
  intro prev cs
  induction cs generalizing prev with
  | nil => intro i h; rfl
  | cons c cs' ih =>
    intro i h
    rw [allQuotesEscaped] at h
    simp only [List.tail_cons, List.zip_cons_cons, List.all_cons, Bool.and_eq_true] at h
    rw [findClosingQuoteGo]
    have hc : ¬ ((c == quote && !(prev == 92)) = true) := by
      intro hcc
      simp only [Bool.and_eq_true, beq_iff_eq, Bool.not_eq_true', beq_eq_false_iff_ne] at hcc
      have h1 := h.1
      simp only [Bool.or_eq_true, Bool.not_eq_true', beq_eq_false_iff_ne, beq_iff_eq] at h1
      rcases h1 with h1 | h1
      · exact h1 hcc.1
      · exact hcc.2 h1
    rw [if_neg hc]
    apply ih c (i + 1)
    rw [allQuotesEscaped]
    simpa using h.2

/-- **C10.**  A closing-quote candidate is rejected whenever the byte
before it is a backslash, even when that backslash is itself escaped: if
every quote occurrence after the opening quote is immediately preceded by
a backslash, `getValueWithinQuotes` fails with the unterminated-quote
error; in particular the line `FOO="a\\"` makes the whole parse fail with
that error instead of yielding the value `a\`. -/
theorem c10_escapedBackslash :
    (∀ (quote c0 : Nat) (rest : List Nat),
      allQuotesEscaped quote (c0 :: rest) = true →
      getValueWithinQuotes (c0 :: rest) quote = ("", [], some "unterminated closing quote"))
    ∧ parseEnvFileBytes (strToBytes "FOO=\"a\\\\\"") =
        .error "unterminated closing quote" := by
  constructor
  · intro quote c0 rest h
    have hfind : findClosingQuote (c0 :: rest) quote = -1 := by
      rw [findClosingQuote]
      exact findClosingQuoteGo_all_escaped quote c0 rest 1 h
    rw [getValueWithinQuotes]
    simp only [hfind]
    simp
  · rfl

/-- **C10, witness.**  The quoted-value extraction of `"a\\"` (opening quote,
`a`, escaped backslash, quote): the only quote candidate is preceded by a
backslash, so the extraction reports an unterminated quote. -/
theorem c10_witness :
    getValueWithinQuotes [34, 97, 92, 92, 34] CharDoubleQuote =
      ("", [], some "unterminated closing quote") :=
  c10_escapedBackslash.1 CharDoubleQuote 34 [97, 92, 92, 34] (by decide)


/-! ## Claim C8: the `int` kind parses at width 32 -/

/-- **C8, counterexample.**  The claim says a field of Go type `int`
(64 bits on the target platform) accepts every decimal string representable
in `int`, for example `"2147483648"`.  The registered parser for the `Int`
kind calls `strconv.ParseInt(v, 10, 32)`, so that very string is rejected
as out of range. -/
theorem c8_counterexample :
    parsersInt "2147483648" = .error "value out of range" := by
  rfl

/-- Range of a successful `goParseDecDigits`: a negative parse lies in
`[-2^(bitSize-1), 0]`, a non-negative one in `[0, 2^(bitSize-1) - 1]`. -/
theorem goParseDecDigits_range (neg : Bool) (ds : List Char) (bitSize : Nat)
    (n : Int) (h : goParseDecDigits neg ds bitSize = .ok n) :
    (neg = true → -(2 ^ (bitSize - 1) : Int) ≤ n ∧ n ≤ 0) ∧
      (neg = false → 0 ≤ n ∧ n < (2 ^ (bitSize - 1) : Int)) := by
  rw [goParseDecDigits] at h
  have hcast : ((2 ^ (bitSize - 1) : Nat) : Int) = (2 : Int) ^ (bitSize - 1) := by
    push_cast
    ring
  split_ifs at h with h1 h2 h3 h4 h5
  · have hn : n = -(digitsToNat ds : Int) := ((Except.ok.injEq _ _).mp h).symm
    subst hn
    have hle : (digitsToNat ds : Int) ≤ (2 : Int) ^ (bitSize - 1) := by
      rw [← hcast]
      exact_mod_cast Nat.le_of_not_lt h4
    have hnn : (0 : Int) ≤ (digitsToNat ds : Int) := Int.natCast_nonneg _
    constructor
    · intro _
      constructor <;> omega
    · intro hf
      rw [h3] at hf
      cases hf
  · have hn : n = (digitsToNat ds : Int) := ((Except.ok.injEq _ _).mp h).symm
    subst hn
    have hlt : (digitsToNat ds : Int) < (2 : Int) ^ (bitSize - 1) := by
      rw [← hcast]
      exact_mod_cast Nat.lt_of_not_le h5
    have hnn : (0 : Int) ≤ (digitsToNat ds : Int) := Int.natCast_nonneg _
    constructor
    · intro ht
      rw [ht] at h3
      exact absurd rfl h3
    · intro _
      exact ⟨hnn, hlt⟩

/-- **C8, amended.**  Every sized integer kind parses decimally at its own
width, but the `int` (and `uint`) kinds parse at width 32 rather than at
the platform's 64-bit width: every value accepted for an `int` field lies
in `[-2^31, 2^31-1]`; `"2147483647"` parses, `"2147483648"` is rejected as
out of range for `int` while it parses for `int64`, `"128"` is rejected
for `int8`, and `"4294967296"` is rejected for `uint`. -/
theorem c8_amended :
    (∀ (s : String) (n : Int), parsersInt s = .ok n → -(2 ^ 31) ≤ n ∧ n < 2 ^ 31)
    ∧ parsersInt "2147483647" = .ok 2147483647
    ∧ parsersInt "2147483648" = .error "value out of range"
    ∧ parsersInt64 "2147483648" = .ok 2147483648
    ∧ parsersInt8 "128" = .error "value out of range"
    ∧ parsersUint "4294967296" = .error "value out of range"
    ∧ parsersUint64 "4294967296" = .ok 4294967296 := by
  refine ⟨?_, by rfl, by rfl, by rfl, by rfl, by rfl, by rfl⟩
  intro s n h
  rw [parsersInt, goParseInt] at h
  have hpow : ((2 : Int) ^ (32 - 1)) = 2 ^ 31 := by norm_num
  split_ifs at h with h1 h2 h3
  · have hr := (goParseDecDigits_range true s.data.tail 32 n h).1 rfl
    rw [hpow] at hr
    constructor <;> omega
  · have hr := (goParseDecDigits_range false s.data.tail 32 n h).2 rfl
    rw [hpow] at hr
    constructor <;> omega
  · have hr := (goParseDecDigits_range false s.data 32 n h).2 rfl
    rw [hpow] at hr
    constructor <;> omega

/-- **C8, witness.**  The range bound of the amended statement applied to
the successfully parsed string `"123"`. -/
theorem c8_witness : -(2 ^ 31 : Int) ≤ 123 ∧ (123 : Int) < 2 ^ 31 :=
  c8_amended.1 "123" 123 (by rfl)

/-! ## Claim C1: the `init` tag option and nil pointer fields -/

/-- **C1.**  The claim says a nil pointer-to-struct field is allocated and
recursed into exactly when its tag carries the `init` option.  In the
source, `parseField` calls `initialisePointer` unconditionally after
`setField` (env.go line 222), so the allocation is not gated on `init` at
all, and the `tags.Init && invalidPtr` branch of `handleStructOrSlice` is
unreachable for pointer fields.  Here a non-ignored nil pointer-to-struct
field with no `env` tag (its parsed `Init` flag is `false`) is allocated
anyway, recursed into, and its inner `HOST` field is bound from the
environment — instead of being left nil as claimed. -/
theorem c1_initGateDead :
    (parseFieldTags
        (.mk true none "" (some "IN_")
          (.ptrT (.structT false [.mk true (some "HOST") "" none .strT])))
        ⟨[("IN_HOST", "h")], "", true, 1⟩).Init = false
    ∧ parseField 5
        (.mk true none "" (some "IN_")
          (.ptrT (.structT false [.mk true (some "HOST") "" none .strT])))
        (.vPtr none) ⟨[("IN_HOST", "h")], "", true, 1⟩ []
      = (.ok (.vPtr (some (.vStruct [.vStr "h"]))), [("HOST", "h"), ("", "")]) :=
  ⟨rfl, rfl⟩

/-! ## Claim C2: sharing of the raw-values map across a call tree -/

/-- **C2, counterexample.**  The claim says the raw-values map is shared
by reference across the call tree *including* a `ParseWithOpts` call whose
`Options` has the internal map unset.  `resolveValue` receives `Options`
by value: the `make(map...)` that replaces a nil map lives in the local
copy and is discarded on return, so with an unset map nothing is shared.
Here field `A` (default `x`, absent from the mapping) is processed first,
and field `B` with `env:"B,expand"` and default `${A}` then resolves to
the empty string — not to `x` as the claim's sibling-expansion promise
requires — and the shared map stays empty. -/
theorem c2_counterexample :
    parseFieldsM 1
      [.mk true (some "A") "x" none .strT, .mk true (some "B,expand") "${A}" none .strT]
      [.vStr "", .vStr ""] ⟨[], "", false, 3⟩ []
      = (.ok [.vStr "x", .vStr ""], []) := rfl

/-- **C2, amended.**  The raw-values map behaves as the claim says only
when it was non-nil at the top-level call (`Parse` / `defaultOptions`),
modelled by `rawInit = true`: then every `resolveValue` prepends one entry
keyed by the field's own key (even when the required check then fails),
and a later sibling's `${A}` expansion resolves from it (the end-to-end
run binds `B` to `x` although `A` is absent from the mapping).  When the
map was unset (`rawInit = false`, a caller-supplied `Options`), every
`resolveValue` leaves the shared state untouched — its writes go to a
fresh local map that is discarded — and the same end-to-end run resolves
`${A}` to the empty string. -/
theorem c2_amended :
    (∀ (tags : FieldTags) (opts : Options) (raw : RawMap), opts.rawInit = false →
        (resolveValue tags opts raw).2 = raw)
    ∧ (∀ (tags : FieldTags) (opts : Options) (raw : RawMap), opts.rawInit = true →
        ∃ v : String,
          (resolveValue tags opts raw).2 = (tags.OwnKey, v) :: raw
          ∧ ((resolveValue tags opts raw).1 = .ok v
             ∨ (resolveValue tags opts raw).1
                 = .error ("required environment variable not set: " ++ tags.Key)))
    ∧ parseFieldsM 1
        [.mk true (some "A") "x" none .strT, .mk true (some "B,expand") "${A}" none .strT]
        [.vStr "", .vStr ""] ⟨[], "", true, 3⟩ []
        = (.ok [.vStr "x", .vStr "x"], [("B", "x"), ("A", "x")])
    ∧ parseFieldsM 1
        [.mk true (some "A") "x" none .strT, .mk true (some "B,expand") "${A}" none .strT]
        [.vStr "", .vStr ""] ⟨[], "", false, 3⟩ []
        = (.ok [.vStr "x", .vStr ""], []) := by
  refine ⟨?_, ?_, rfl, rfl⟩
  · intro tags opts raw hraw
    rw [resolveValue]
    simp only [hraw, Bool.false_eq_true, if_false]
    split_ifs <;> rfl
  · intro tags opts raw hraw
    rw [resolveValue]
    simp only [hraw, if_true]
    split_ifs <;> first
      | exact ⟨_, rfl, Or.inr rfl⟩
      | exact ⟨_, rfl, Or.inl rfl⟩

/-- **C2, witness.**  Both amended map behaviors at concrete tags (field
`A`, default `x`, empty mapping): with an unset top-level map the shared
state stays empty; with an initialized one the entry for `A` is
prepended. -/
theorem c2_witness :
    (resolveValue ⟨"A", "A", "x", false, false, false, false, false⟩
        ⟨[], "", false, 0⟩ []).2 = []
    ∧ ∃ v : String,
        (resolveValue ⟨"A", "A", "x", false, false, false, false, false⟩
            ⟨[], "", true, 0⟩ []).2 = ("A", v) :: ([] : RawMap)
        ∧ ((resolveValue ⟨"A", "A", "x", false, false, false, false, false⟩
              ⟨[], "", true, 0⟩ []).1 = .ok v
           ∨ (resolveValue ⟨"A", "A", "x", false, false, false, false, false⟩
              ⟨[], "", true, 0⟩ []).1
               = .error ("required environment variable not set: " ++ "A")) :=
  ⟨c2_amended.1 _ _ _ rfl, c2_amended.2.1 _ _ _ rfl⟩

/-! ## Claim C3: default before required in `resolveValue` -/

/-- **C3, counterexample.**  The claim says a field tagged both `required`
and with a non-empty default never fails the required check under an empty
mapping.  The source's check is `tags.Required && (tags.OwnKey == "" ||
val == "")`: it also fires when the env tag's key part is empty, no matter
the value.  The tag `env:",required"` with default `"x"` produces exactly
such tags, and `resolveValue` rejects it even though the default `"x"`
was applied (the map entry `("", "x")` is still written first). -/
theorem c3_counterexample :
    parseFieldTags (.mk true (some ",required") "x" none .strT) ⟨[], "", true, 0⟩
      = ⟨"", "", "x", true, false, false, false, false⟩
    ∧ resolveValue ⟨"", "", "x", true, false, false, false, false⟩ ⟨[], "", true, 0⟩ []
      = (.error "required environment variable not set: ", [("", "x")]) :=
  ⟨rfl, rfl⟩

/-- **C3, amended.**  Value resolution applies the default first and only
then checks the required flag against the resulting value, with one caveat
the claim misses: the required check is `Required && (OwnKey == "" || val
== "")`, so it also fires when the field's own key is empty.  Amended:
under an empty mapping and no expansion, a field tagged required with a
non-empty default and a **non-empty own key** resolves to the default and
passes the required check; a field tagged required with no default still
resolves to the empty value and fails with the error naming the field's
full (prefixed) key. -/
theorem c3_amended :
    (∀ (tags : FieldTags) (opts : Options) (raw : RawMap),
        tags.Required = true → tags.OwnKey ≠ "" → tags.Default ≠ "" →
        tags.Expand = false → opts.Env = [] →
        (resolveValue tags opts raw).1 = .ok tags.Default)
    ∧ (∀ (tags : FieldTags) (opts : Options) (raw : RawMap),
        tags.Required = true → tags.Default = "" → tags.Expand = false → opts.Env = [] →
        (resolveValue tags opts raw).1
          = .error ("required environment variable not set: " ++ tags.Key)) := by
  constructor
  · intro tags opts raw hreq hown hdef hexp henv
    simp [resolveValue, henv, lookupEnv, hexp, hreq, hown, hdef]
  · intro tags opts raw hreq hdef hexp henv
    simp [resolveValue, henv, lookupEnv, hexp, hreq, hdef]

/-- **C3, witness.**  Both amended parts at concrete tags: the key `K`
under prefix `P_` with default `dflt` resolves to the default and passes
the required check, and with no default it fails naming `P_K`. -/
theorem c3_witness :
    (resolveValue ⟨"K", "P_K", "dflt", true, false, false, false, false⟩
        ⟨[], "P_", true, 0⟩ []).1 = .ok "dflt"
    ∧ (resolveValue ⟨"K", "P_K", "", true, false, false, false, false⟩
        ⟨[], "P_", true, 0⟩ []).1
      = .error "required environment variable not set: P_K" :=
  ⟨c3_amended.1 _ _ _ rfl (by decide) (by decide) rfl rfl,
   c3_amended.2 _ _ _ rfl rfl rfl rfl⟩

/-! ## The populate loop of `parseSliceOfStructs` -/

/-- A successful populate run yields exactly `count` elements. -/
theorem populateSliceGo_ok_length
    (rs : Val → Options → RawMap → (Except String Val) × RawMap)
    (zero : Val) (old : List Val) (init : Nat) (idxs : List Int) (opts : Options) :
    ∀ (count i : Nat) (raw : RawMap) (res : List Val) (raw' : RawMap),
      populateSliceGo rs zero old init idxs opts i count raw = (.ok res, raw') →
      res.length = count := by
  intro count
  induction count with
  | zero =>
    intro i raw res raw' h
    rw [populateSliceGo] at h
    injection h with h1 h2
    injection h1 with h1
    rw [← h1]
    rfl
  | succ n ih =>
    intro i raw res raw' h
    rw [populateSliceGo] at h
    by_cases hc : idxs.contains (i : Int) = true
    · rw [if_pos hc] at h
      split at h
      · exact absurd h (by simp)
      · rename_i item1 raw1 heq1
        split at h
        · exact absurd h (by simp)
        · rename_i rest raw2 heq2
          injection h with h1 h2
          injection h1 with h1
          rw [← h1]
          simp only [List.length_cons]
          rw [ih _ _ _ _ heq2]
    · rw [if_neg hc] at h
      split at h
      · exact absurd h (by simp)
      · rename_i rest raw2 heq2
        injection h with h1 h2
        injection h1 with h1
        rw [← h1]
        simp only [List.length_cons]
        rw [ih _ _ _ _ heq2]

/-- In a successful populate run, a position whose index was not scanned
receives the copied pre-existing element (when inside the initialised
range) or the zero element. -/
theorem populateSliceGo_skip
    (rs : Val → Options → RawMap → (Except String Val) × RawMap)
    (zero : Val) (old : List Val) (init : Nat) (idxs : List Int) (opts : Options) :
    ∀ (count i : Nat) (raw : RawMap) (res : List Val) (raw' : RawMap),
      populateSliceGo rs zero old init idxs opts i count raw = (.ok res, raw') →
      ∀ j : Nat, j < count → idxs.contains ((i + j : Nat) : Int) = false →
        res.getD j zero = if i + j < init then old.getD (i + j) zero else zero := by
  intro count
  induction count with
  | zero =>
    intro i raw res raw' h j hj
    omega
  | succ n ih =>
    intro i raw res raw' h j hj hskip
    rw [populateSliceGo] at h
    by_cases hc : idxs.contains (i : Int) = true
    · rw [if_pos hc] at h
      split at h
      · exact absurd h (by simp)
      · rename_i item1 raw1 heq1
        split at h
        · exact absurd h (by simp)
        · rename_i rest raw2 heq2
          injection h with h1 h2
          injection h1 with h1
          rw [← h1]
          cases j with
          | zero =>
            rw [Nat.add_zero] at hskip
            rw [hskip] at hc
            cases hc
          | succ m =>
            have := ih (i + 1) _ _ _ heq2 m (by omega)
              (by rw [show i + 1 + m = i + (m + 1) by omega]; exact hskip)
            simpa [show i + 1 + m = i + (m + 1) by omega] using this
    · rw [if_neg hc] at h
      split at h
      · exact absurd h (by simp)
      · rename_i rest raw2 heq2
        injection h with h1 h2
        injection h1 with h1
        rw [← h1]
        cases j with
        | zero =>
          simp
        | succ m =>
          have := ih (i + 1) _ _ _ heq2 m (by omega)
            (by rw [show i + 1 + m = i + (m + 1) by omega]; exact hskip)
          simpa [show i + 1 + m = i + (m + 1) by omega] using this

/-! ## Claim C4: slice-of-structs binding -/

/-- **C4.**  Binding a slice-of-structs field scans the mapping for keys
`P ++ i ++ "_" ++ rest`, recursively binds each present index `i` under
the prefix `P ++ i ++ "_"` (first conjunct: the indexed prefix has exactly
that form), and on success builds a slice of length
`max (existing length) (max index + 1)` in which every position whose
index was not scanned keeps the pre-existing element (second conjunct);
the claim's concrete scenario — mapping `{P_0_FOO: a, P_1_FOO: b}`,
element field `FOO`, prefix `P_`, empty initial slice — yields the slice
`[{a}, {b}]` of length 2 (third conjunct). -/
theorem c4_sliceOfStructs :
    (∀ (opts : Options) (i : Nat),
        (opts.withSliceEnvPrefix i).Prefix = opts.Prefix ++ toString i ++ "_")
    ∧ (∀ (rs : Val → Options → RawMap → (Except String Val) × RawMap)
         (fs : List FieldD) (old : List Val) (opts0 : Options) (raw : RawMap)
         (res : Val) (raw' : RawMap),
        parseSliceOfStructs rs fs (.vSlice old) opts0 raw = (.ok res, raw') →
        (({ opts0 with
              Prefix := ensureTrailingUnderscore opts0.Prefix } : Options).filterPrefixedEnvVars.isEmpty
              = true
            ∧ res = .vSlice old)
        ∨ (∃ es : List Val, res = .vSlice es
            ∧ es.length = max old.length
                ((findMaxIndex ({ opts0 with
                    Prefix := ensureTrailingUnderscore opts0.Prefix } : Options).filterPrefixedEnvVars).toNat
                  + 1)
            ∧ ∀ j : Nat, j < old.length →
                ({ opts0 with
                    Prefix := ensureTrailingUnderscore opts0.Prefix } : Options).filterPrefixedEnvVars.contains
                    ((j : Nat) : Int) = false →
                es.getD j (zeroStruct fs) = old.getD j (zeroStruct fs)))
    ∧ parseSliceOfStructsM 3 [.mk true (some "FOO") "" none .strT] (.vSlice [])
        ⟨[("P_0_FOO", "a"), ("P_1_FOO", "b")], "P_", false, 0⟩ []
      = (.ok (.vSlice [.vStruct [.vStr "a"], .vStruct [.vStr "b"]]), []) := by
  refine ⟨fun opts i => rfl, ?_, rfl⟩
  intro rs fs old opts0 raw res raw' h
  rw [parseSliceOfStructs] at h
  split at h
  · rename_i he
    injection h with h1 h2
    injection h1 with h1
    exact Or.inl ⟨he, h1.symm⟩
  · rename_i he
    simp only [Bool.false_eq_true, if_false, updateReference] at h
    split at h
    · exact absurd h (by simp)
    · rename_i result raw1 heq
      injection h with h1 h2
      injection h1 with h1
      refine Or.inr ⟨result, h1.symm, ?_, ?_⟩
      · have hlen := populateSliceGo_ok_length _ _ _ _ _ _ _ _ _ _ _ heq
        rw [hlen]
        simp only [sliceCapacity, sliceInit, sliceOld, sliceIsPointer, sliceNewLength,
          Bool.false_eq_true, if_false]
        split <;> omega
      · intro j hj hskip
        have := populateSliceGo_skip _ _ _ _ _ _ _ 0 _ _ _ heq j
          (by
            simp only [sliceCapacity, sliceInit, sliceOld, sliceIsPointer, sliceNewLength,
              Bool.false_eq_true, if_false]
            split <;> omega)
          (by simpa using hskip)
        simpa [hj, sliceInit, sliceOld, sliceIsPointer] using this

/-- **C4, witness.**  The general conjunct applied to a concrete run with a
pre-existing element: mapping `{P_1_FOO: b}`, initial slice `[{z}]` — the
result has length `max 1 2 = 2` and position 0 (not scanned) keeps `{z}`. -/
theorem c4_witness :
    ((⟨[("P_1_FOO", "b")], "P_", false, 0⟩ : Options).filterPrefixedEnvVars.isEmpty = true
        ∧ Val.vSlice [.vStruct [.vStr "z"], .vStruct [.vStr "b"]]
            = .vSlice [.vStruct [.vStr "z"]])
    ∨ (∃ es : List Val,
        Val.vSlice [.vStruct [.vStr "z"], .vStruct [.vStr "b"]] = .vSlice es
        ∧ es.length = max [Val.vStruct [.vStr "z"]].length
            ((findMaxIndex
                (⟨[("P_1_FOO", "b")], "P_", false, 0⟩ : Options).filterPrefixedEnvVars).toNat + 1)
        ∧ ∀ j : Nat, j < [Val.vStruct [.vStr "z"]].length →
            (⟨[("P_1_FOO", "b")], "P_", false, 0⟩ : Options).filterPrefixedEnvVars.contains
              ((j : Nat) : Int) = false →
            es.getD j (zeroStruct [.mk true (some "FOO") "" none .strT])
              = [Val.vStruct [.vStr "z"]].getD j
                  (zeroStruct [.mk true (some "FOO") "" none .strT])) :=
  c4_sliceOfStructs.2.1 (parseStructM 1 [.mk true (some "FOO") "" none .strT])
    [.mk true (some "FOO") "" none .strT] [.vStruct [.vStr "z"]]
    ⟨[("P_1_FOO", "b")], "P_", false, 0⟩ []
    (.vSlice [.vStruct [.vStr "z"], .vStruct [.vStr "b"]]) [] rfl

/-! ## Claim C9 groundwork: the no-expand fragment of the binder -/

/-- Tags parsed from a no-expand field never set `Expand`. -/
theorem noExpandFD_tags (fd : FieldD) (opts : Options) (h : noExpandFD fd = true) :
    (parseFieldTags fd opts).Expand = false := by
  rcases fd with ⟨c, e, d, p, t⟩
  simp only [noExpandFD, Bool.and_eq_true, Bool.not_eq_true'] at h
  rw [parseFieldTags]
  split_ifs with h1
  · rfl
  · simpa [FieldD.envTag] using h.1

/-- With `Expand` off, the value component of `resolveValue` does not
depend on the raw-values map. -/
theorem resolveValue_raw (tags : FieldTags) (opts : Options) (hexp : tags.Expand = false)
    (raw raw' : RawMap) :
    (resolveValue tags opts raw).1 = (resolveValue tags opts raw').1 := by
  rw [resolveValue, resolveValue]
  simp only [hexp, Bool.false_eq_true, if_false]
  split_ifs <;> rfl

/-- The value component of `setField` is `setFieldGo` of the resolved
value. -/
theorem setField_fst (v : Val) (fd : FieldD) (tags : FieldTags) (opts : Options)
    (raw : RawMap) :
    (setField v fd tags opts raw).1 = setFieldGo v fd (resolveValue tags opts raw).1 :=
  rfl

/-- With `Expand` off, the value component of `setField` does not depend
on the raw-values map. -/
theorem setField_raw (v : Val) (fd : FieldD) (tags : FieldTags) (opts : Options)
    (hexp : tags.Expand = false) (raw raw' : RawMap) :
    (setField v fd tags opts raw).1 = (setField v fd tags opts raw').1 := by
  rw [setField_fst, setField_fst, resolveValue_raw tags opts hexp raw raw']

/-- When the resolved value is empty, `setField` leaves the field value
untouched. -/
theorem setField_empty (v : Val) (fd : FieldD) (tags : FieldTags) (opts : Options)
    (raw : RawMap) (h : (resolveValue tags opts raw).1 = .ok "") :
    (setField v fd tags opts raw).1 = .ok v := by
  rw [setField_fst, h]
  rfl

/-- Re-running the value computation of `setField` on its own successful
output returns that output unchanged. -/
theorem setFieldGo_idem (v : Val) (fd : FieldD) (val : String) (w : Val)
    (h : setFieldGo v fd (.ok val) = .ok w) :
    setFieldGo w fd (.ok val) = .ok w := by
  by_cases hval : val = ""
  · subst hval
    have h2 : (Except.ok v : Except String Val) = .ok w := h
    injection h2 with h2
    subst h2
    rfl
  · rcases fd with ⟨c, e, d, p, t⟩
    cases t with
    | strT =>
      cases v <;>
        simp_all [setFieldGo, applyParser, resolvePointer, setResolved, handleSpecialTypes,
          handleSlice, FieldD.ty]
    | intT =>
      rcases hp : parsersInt val with e' | n <;>
        cases v <;>
          simp_all [setFieldGo, applyParser, resolvePointer, setResolved, handleSpecialTypes,
            handleSlice, FieldD.ty]
    | structT anon fs =>
      cases v <;>
        simp_all [setFieldGo, applyParser, resolvePointer, setResolved, handleSpecialTypes,
          handleSlice, FieldD.ty]
    | sliceStructT fs =>
      cases v <;>
        simp_all [setFieldGo, applyParser, resolvePointer, setResolved, handleSpecialTypes,
          handleSlice, FieldD.ty]
    | ptrT et =>
      cases et with
      | strT =>
        cases v with
        | vPtr op =>
          cases op with
          | none =>
            simp_all [setFieldGo, applyParser, resolvePointer, setResolved, handleSpecialTypes,
              handleSlice, zeroVal, FieldD.ty]
            subst h
            rfl
          | some x =>
            simp_all [setFieldGo, applyParser, resolvePointer, setResolved, handleSpecialTypes,
              handleSlice, zeroVal, FieldD.ty]
            subst h
            rfl
        | _ =>
          simp_all [setFieldGo, applyParser, resolvePointer, setResolved, handleSpecialTypes,
            handleSlice, FieldD.ty]
      | intT =>
        rcases hp : parsersInt val with e' | n
        · cases v with
          | vPtr op =>
            cases op <;>
              simp_all [setFieldGo, applyParser, resolvePointer, setResolved, handleSpecialTypes,
                handleSlice, zeroVal, FieldD.ty]
          | _ =>
            simp_all [setFieldGo, applyParser, resolvePointer, setResolved, handleSpecialTypes,
              handleSlice, FieldD.ty]
        · cases v with
          | vPtr op =>
            cases op with
            | none =>
              simp_all [setFieldGo, applyParser, resolvePointer, setResolved, handleSpecialTypes,
                handleSlice, zeroVal, FieldD.ty]
              subst h
              rfl
            | some x =>
              simp_all [setFieldGo, applyParser, resolvePointer, setResolved, handleSpecialTypes,
                handleSlice, zeroVal, FieldD.ty]
              subst h
              rfl
          | _ =>
            simp_all [setFieldGo, applyParser, resolvePointer, setResolved, handleSpecialTypes,
              handleSlice, FieldD.ty]
      | structT anon fs =>
        cases v with
        | vPtr op =>
          cases op <;>
            simp_all [setFieldGo, applyParser, resolvePointer, setResolved, handleSpecialTypes,
              handleSlice, zeroVal, FieldD.ty]
        | _ =>
          simp_all [setFieldGo, applyParser, resolvePointer, setResolved, handleSpecialTypes,
            handleSlice, FieldD.ty]
      | ptrT et2 =>
        cases v with
        | vPtr op =>
          cases op <;>
            simp_all [setFieldGo, applyParser, resolvePointer, setResolved, handleSpecialTypes,
              handleSlice, zeroVal, FieldD.ty]
        | _ =>
          simp_all [setFieldGo, applyParser, resolvePointer, setResolved, handleSpecialTypes,
            handleSlice, FieldD.ty]
      | sliceStructT fs =>
        cases v with
        | vPtr op =>
          cases op <;>
            simp_all [setFieldGo, applyParser, resolvePointer, setResolved, handleSpecialTypes,
              handleSlice, zeroVal, FieldD.ty]
        | _ =>
          simp_all [setFieldGo, applyParser, resolvePointer, setResolved, handleSpecialTypes,
            handleSlice, FieldD.ty]

/-- Re-running `setField` on its own successful output returns that output
unchanged (no-expand tags, so the resolved value is reproduced). -/
theorem setField_idem (v : Val) (fd : FieldD) (tags : FieldTags) (opts : Options)
    (raw : RawMap) (w : Val) (raw₁ : RawMap)
    (hexp : tags.Expand = false)
    (h : setField v fd tags opts raw = (.ok w, raw₁)) :
    ∀ raw₂ : RawMap, (setField w fd tags opts raw₂).1 = .ok w := by
  intro raw₂
  have h1 : setFieldGo v fd (resolveValue tags opts raw).1 = .ok w := by
    have hh := congrArg Prod.fst h
    simpa [setField_fst] using hh
  rw [setField_fst, resolveValue_raw tags opts hexp raw₂ raw]
  rcases hr : (resolveValue tags opts raw).1 with e | val
  · rw [hr] at h1
    exact absurd h1 (by simp [setFieldGo])
  · rw [hr] at h1
    exact setFieldGo_idem v fd val w h1

/-- Raw-map irrelevance of the field loop, given it for the callback. -/
theorem parseFields_I1
    (pf : FieldD → Val → Options → RawMap → (Except String Val) × RawMap)
    (hpf : ∀ fd v opts raw raw', noExpandFD fd = true →
        (pf fd v opts raw).1 = (pf fd v opts raw').1) :
    ∀ (fds : List FieldD) (vs : List Val) (opts : Options) (raw raw' : RawMap),
      noExpandFields fds = true →
      (parseFields pf fds vs opts raw).1 = (parseFields pf fds vs opts raw').1 := by
  intro fds
  induction fds with
  | nil =>
    intro vs opts raw raw' hne
    rfl
  | cons fd fds ih =>
    intro vs opts raw raw' hne
    rw [noExpandFields] at hne
    simp only [Bool.and_eq_true] at hne
    cases vs with
    | nil => rfl
    | cons v vs =>
      rw [parseFields, parseFields]
      rcases h1 : pf fd v opts raw with ⟨r1, m1⟩
      rcases h2 : pf fd v opts raw' with ⟨r2, m2⟩
      have hr : r1 = r2 := by
        have hh := hpf fd v opts raw raw' hne.1
        rw [h1, h2] at hh
        exact hh
      subst hr
      cases r1 with
      | error e => rfl
      | ok w =>
        simp only []
        rcases h3 : parseFields pf fds vs opts m1 with ⟨s1, n1⟩
        rcases h4 : parseFields pf fds vs opts m2 with ⟨s2, n2⟩
        have hs : s1 = s2 := by
          have hh := ih vs opts m1 m2 hne.2
          rw [h3, h4] at hh
          exact hh
        subst hs
        cases s1 <;> rfl

/-- Idempotence of the field loop, given both contracts for the
callback. -/
theorem parseFields_I2
    (pf : FieldD → Val → Options → RawMap → (Except String Val) × RawMap)
    (hpf2 : ∀ fd v opts raw w raw₁, noExpandFD fd = true →
        pf fd v opts raw = (.ok w, raw₁) →
        ∀ raw₂, (pf fd w opts raw₂).1 = .ok w) :
    ∀ (fds : List FieldD) (vs : List Val) (opts : Options) (raw : RawMap)
      (ws : List Val) (raw₁ : RawMap),
      noExpandFields fds = true →
      parseFields pf fds vs opts raw = (.ok ws, raw₁) →
      ∀ raw₂ : RawMap, (parseFields pf fds ws opts raw₂).1 = .ok ws := by
  intro fds
  induction fds with
  | nil =>
    intro vs opts raw ws raw₁ hne h raw₂
    rw [parseFields] at h
    have ha : ([] : List Val) = ws := by
      simpa using congrArg Prod.fst h
    subst ha
    rfl
  | cons fd fds ih =>
    intro vs opts raw ws raw₁ hne h raw₂
    rw [noExpandFields] at hne
    simp only [Bool.and_eq_true] at hne
    cases vs with
    | nil =>
      rw [parseFields] at h
      have ha : ([] : List Val) = ws := by
        simpa using congrArg Prod.fst h
      subst ha
      rfl
    | cons v vs =>
      rw [parseFields] at h
      split at h
      · exact absurd h (by simp)
      · rename_i w1 m1 heq1
        split at h
        · exact absurd h (by simp)
        · rename_i ws1 m2 heq2
          injection h with ha hb
          injection ha with ha
          subst ha
          rw [parseFields]
          rcases hq : pf fd w1 opts raw₂ with ⟨r, m⟩
          have hr : r = .ok w1 := by
            have hh := hpf2 fd v opts raw w1 m1 hne.1 heq1 raw₂
            rw [hq] at hh
            exact hh
          subst hr
          simp only []
          rcases hq2 : parseFields pf fds ws1 opts m with ⟨s, n⟩
          have hs : s = .ok ws1 := by
            have hh := ih vs opts m1 ws1 m2 hne.2 heq2 m
            rw [hq2] at hh
            exact hh
          subst hs
          rfl

/-- Raw-map irrelevance of `parseStruct`, given it for the field loop. -/
theorem parseStruct_I1
    (rf : List FieldD → List Val → Options → RawMap → (Except String (List Val)) × RawMap)
    (hrf : ∀ fds vs opts raw raw', noExpandFields fds = true →
        (rf fds vs opts raw).1 = (rf fds vs opts raw').1)
    (fs : List FieldD) (v : Val) (opts : Options) (raw raw' : RawMap)
    (hne : noExpandFields fs = true) :
    (parseStruct rf fs v opts raw).1 = (parseStruct rf fs v opts raw').1 := by
  cases v with
  | vStruct vs =>
    rw [parseStruct, parseStruct]
    rcases h1 : rf fs vs opts raw with ⟨r1, m1⟩
    rcases h2 : rf fs vs opts raw' with ⟨r2, m2⟩
    have hr : r1 = r2 := by
      have hh := hrf fs vs opts raw raw' hne
      rw [h1, h2] at hh
      exact hh
    subst hr
    cases r1 <;> rfl
  | vPtr op =>
    cases op with
    | none => rfl
    | some x =>
      cases x with
      | vStruct vs =>
        rw [parseStruct, parseStruct]
        rcases h1 : rf fs vs opts raw with ⟨r1, m1⟩
        rcases h2 : rf fs vs opts raw' with ⟨r2, m2⟩
        have hr : r1 = r2 := by
          have hh := hrf fs vs opts raw raw' hne
          rw [h1, h2] at hh
          exact hh
        subst hr
        cases r1 <;> rfl
      | _ => rfl
  | _ => rfl

/-- Idempotence of `parseStruct`, given it for the field loop. -/
theorem parseStruct_I2
    (rf : List FieldD → List Val → Options → RawMap → (Except String (List Val)) × RawMap)
    (hrf2 : ∀ fds vs opts raw ws raw₁, noExpandFields fds = true →
        rf fds vs opts raw = (.ok ws, raw₁) →
        ∀ raw₂, (rf fds ws opts raw₂).1 = .ok ws)
    (fs : List FieldD) (v : Val) (opts : Options) (raw : RawMap) (w : Val) (raw₁ : RawMap)
    (hne : noExpandFields fs = true)
    (h : parseStruct rf fs v opts raw = (.ok w, raw₁)) :
    ∀ raw₂ : RawMap, (parseStruct rf fs w opts raw₂).1 = .ok w := by
  intro raw₂
  cases v with
  | vStruct vs =>
    rw [parseStruct] at h
    split at h
    · exact absurd h (by simp)
    · rename_i vs1 m heq
      injection h with ha hb
      injection ha with ha
      subst ha
      rw [parseStruct]
      rcases hq : rf fs vs1 opts raw₂ with ⟨r, m2⟩
      have hr : r = .ok vs1 := by
        have hh := hrf2 fs vs opts raw vs1 m hne heq raw₂
        rw [hq] at hh
        exact hh
      subst hr
      rfl
  | vPtr op =>
    cases op with
    | none => exact absurd h (by simp [parseStruct])
    | some x =>
      cases x with
      | vStruct vs =>
        rw [parseStruct] at h
        split at h
        · exact absurd h (by simp)
        · rename_i vs1 m heq
          injection h with ha hb
          injection ha with ha
          subst ha
          rw [parseStruct]
          rcases hq : rf fs vs1 opts raw₂ with ⟨r, m2⟩
          have hr : r = .ok vs1 := by
            have hh := hrf2 fs vs opts raw vs1 m hne heq raw₂
            rw [hq] at hh
            exact hh
          subst hr
          rfl
      | vStr s => exact absurd h (by simp [parseStruct])
      | vInt n => exact absurd h (by simp [parseStruct])
      | vPtr op2 => exact absurd h (by simp [parseStruct])
      | vSlice es => exact absurd h (by simp [parseStruct])
  | vStr s => exact absurd h (by simp [parseStruct])
  | vInt n => exact absurd h (by simp [parseStruct])
  | vSlice es => exact absurd h (by simp [parseStruct])

/-- Raw-map irrelevance of the populate loop, given it pointwise for the
struct callback. -/
theorem populateSliceGo_I1
    (rs : Val → Options → RawMap → (Except String Val) × RawMap)
    (hrs : ∀ v opts raw raw', (rs v opts raw).1 = (rs v opts raw').1)
    (zero : Val) (old : List Val) (init : Nat) (idxs : List Int) (opts : Options) :
    ∀ (count i : Nat) (raw raw' : RawMap),
      (populateSliceGo rs zero old init idxs opts i count raw).1
        = (populateSliceGo rs zero old init idxs opts i count raw').1 := by
  intro count
  induction count with
  | zero =>
    intro i raw raw'
    rfl
  | succ n ih =>
    intro i raw raw'
    rw [populateSliceGo, populateSliceGo]
    by_cases hc : idxs.contains (i : Int) = true
    · rw [if_pos hc, if_pos hc]
      rcases h1 : rs (if i < init then old.getD i zero else zero)
          (opts.withSliceEnvPrefix i) raw with ⟨r1, m1⟩
      rcases h2 : rs (if i < init then old.getD i zero else zero)
          (opts.withSliceEnvPrefix i) raw' with ⟨r2, m2⟩
      have hr : r1 = r2 := by
        have hh := hrs (if i < init then old.getD i zero else zero)
          (opts.withSliceEnvPrefix i) raw raw'
        rw [h1, h2] at hh
        exact hh
      subst hr
      cases r1 with
      | error e => rfl
      | ok w =>
        simp only []
        rcases h3 : populateSliceGo rs zero old init idxs opts (i + 1) n m1 with ⟨s1, n1⟩
        rcases h4 : populateSliceGo rs zero old init idxs opts (i + 1) n m2 with ⟨s2, n2⟩
        have hs : s1 = s2 := by
          have hh := ih (i + 1) m1 m2
          rw [h3, h4] at hh
          exact hh
        subst hs
        cases s1 <;> rfl
    · rw [if_neg hc, if_neg hc]
      rcases h3 : populateSliceGo rs zero old init idxs opts (i + 1) n raw with ⟨s1, n1⟩
      rcases h4 : populateSliceGo rs zero old init idxs opts (i + 1) n raw' with ⟨s2, n2⟩
      have hs : s1 = s2 := by
        have hh := ih (i + 1) raw raw'
        rw [h3, h4] at hh
        exact hh
      subst hs
      cases s1 <;> rfl

/-- Re-running the populate loop over a shifted window that copies the
previous result reproduces that result: the struct callback is idempotent
and every position sits inside the new initialised range. -/
theorem populateSliceGo_I2
    (rs : Val → Options → RawMap → (Except String Val) × RawMap)
    (hrs2 : ∀ v opts raw w raw₁, rs v opts raw = (.ok w, raw₁) →
        ∀ raw₂, (rs w opts raw₂).1 = .ok w)
    (zero : Val) (idxs : List Int) (opts : Options) :
    ∀ (count i : Nat) (old : List Val) (init : Nat) (raw : RawMap)
      (res : List Val) (raw₁ : RawMap),
      populateSliceGo rs zero old init idxs opts i count raw = (.ok res, raw₁) →
      ∀ (old₂ : List Val) (init₂ : Nat) (raw₂ : RawMap),
        (∀ j : Nat, j < count → old₂.getD (i + j) zero = res.getD j zero) →
        (∀ j : Nat, j < count → i + j < init₂) →
        (populateSliceGo rs zero old₂ init₂ idxs opts i count raw₂).1 = .ok res := by
  intro count
  induction count with
  | zero =>
    intro i old init raw res raw₁ h old₂ init₂ raw₂ hcopy hinit
    rw [populateSliceGo] at h
    have hres : ([] : List Val) = res := by
      simpa using congrArg Prod.fst h
    subst hres
    rfl
  | succ n ih =>
    intro i old init raw res raw₁ h old₂ init₂ raw₂ hcopy hinit
    rw [populateSliceGo] at h
    rw [populateSliceGo]
    have hi2 : i < init₂ := by
      have := hinit 0 (by omega)
      simpa using this
    by_cases hc : idxs.contains (i : Int) = true
    · rw [if_pos hc] at h
      rw [if_pos hc]
      split at h
      · exact absurd h (by simp)
      · rename_i w1 m1 heq1
        split at h
        · exact absurd h (by simp)
        · rename_i rest m2 heq2
          have hres : w1 :: rest = res := by
            simpa using congrArg Prod.fst h
          subst hres
          have hitem : (if i < init₂ then old₂.getD i zero else zero) = w1 := by
            rw [if_pos hi2]
            have := hcopy 0 (by omega)
            simpa using this
          rw [hitem]
          rcases hq : rs w1 (opts.withSliceEnvPrefix i) raw₂ with ⟨r, m⟩
          have hr : r = .ok w1 := by
            have hh := hrs2 _ _ _ _ _ heq1 raw₂
            rw [hq] at hh
            exact hh
          subst hr
          simp only []
          rcases hq2 : populateSliceGo rs zero old₂ init₂ idxs opts (i + 1) n m with ⟨s, m3⟩
          have hs : s = .ok rest := by
            have hh := ih (i + 1) old init m1 rest m2 heq2 old₂ init₂ m
              (fun j hj => by
                have hcj := hcopy (j + 1) (by omega)
                have he1 : i + (j + 1) = i + 1 + j := by omega
                rw [he1] at hcj
                simpa using hcj)
              (fun j hj => by
                have hij := hinit (j + 1) (by omega)
                omega)
            rw [hq2] at hh
            exact hh
          subst hs
          rfl
    · rw [if_neg hc] at h
      rw [if_neg hc]
      split at h
      · exact absurd h (by simp)
      · rename_i rest m2 heq2
        have hres : (if i < init then old.getD i zero else zero) :: rest = res := by
          simpa using congrArg Prod.fst h
        subst hres
        have hitem : (if i < init₂ then old₂.getD i zero else zero)
            = (if i < init then old.getD i zero else zero) := by
          rw [if_pos hi2]
          have := hcopy 0 (by omega)
          simpa using this
        rw [hitem]
        rcases hq2 : populateSliceGo rs zero old₂ init₂ idxs opts (i + 1) n raw₂ with ⟨s, m3⟩
        have hs : s = .ok rest := by
          have hh := ih (i + 1) old init raw rest m2 heq2 old₂ init₂ raw₂
            (fun j hj => by
              have hcj := hcopy (j + 1) (by omega)
              have he1 : i + (j + 1) = i + 1 + j := by omega
              rw [he1] at hcj
              simpa using hcj)
            (fun j hj => by
              have hij := hinit (j + 1) (by omega)
              omega)
          rw [hq2] at hh
          exact hh
        subst hs
        rfl

/-- Raw-map irrelevance of `parseSliceOfStructs`, given it pointwise for
the struct callback. -/
theorem parseSliceOfStructs_I1
    (rs : Val → Options → RawMap → (Except String Val) × RawMap)
    (hrs : ∀ v opts raw raw', (rs v opts raw).1 = (rs v opts raw').1)
    (fs : List FieldD) (v : Val) (opts0 : Options) (raw raw' : RawMap) :
    (parseSliceOfStructs rs fs v opts0 raw).1
      = (parseSliceOfStructs rs fs v opts0 raw').1 := by
  rw [parseSliceOfStructs, parseSliceOfStructs]
  set opts1 := { opts0 with Prefix := ensureTrailingUnderscore opts0.Prefix } with hopts
  set idxs := opts1.filterPrefixedEnvVars with hidxs
  split_ifs with he
  · rfl
  · rcases h1 : populateSliceGo rs (zeroStruct fs) (sliceOld v) (sliceInit v) idxs opts1 0
        (sliceCapacity v idxs) raw with ⟨r1, m1⟩
    rcases h2 : populateSliceGo rs (zeroStruct fs) (sliceOld v) (sliceInit v) idxs opts1 0
        (sliceCapacity v idxs) raw' with ⟨r2, m2⟩
    have hr : r1 = r2 := by
      have hh := populateSliceGo_I1 rs hrs (zeroStruct fs) (sliceOld v) (sliceInit v)
        idxs opts1 (sliceCapacity v idxs) 0 raw raw'
      rw [h1, h2] at hh
      exact hh
    subst hr
    cases r1 <;> rfl

/-- A successful populate run restarted from its own output slice (all
positions initialised) reproduces that output. -/
theorem populateSliceGo_restart
    (rs : Val → Options → RawMap → (Except String Val) × RawMap)
    (hrs2 : ∀ v opts raw w raw₁, rs v opts raw = (.ok w, raw₁) →
        ∀ raw₂, (rs w opts raw₂).1 = .ok w)
    (zero : Val) (idxs : List Int) (opts1 : Options) (count : Nat) (old : List Val)
    (init : Nat) (raw m1 : RawMap) (res : List Val)
    (heq : populateSliceGo rs zero old init idxs opts1 0 count raw = (.ok res, m1))
    (raw₂ : RawMap) :
    (populateSliceGo rs zero res res.length idxs opts1 0 count raw₂).1 = .ok res := by
  have hlen := populateSliceGo_ok_length rs zero old init idxs opts1 count 0 raw res m1 heq
  exact populateSliceGo_I2 rs hrs2 zero idxs opts1 count 0 old init raw res m1 heq
    res res.length raw₂ (fun j hj => by simp) (fun j hj => by omega)

/-- Idempotence of `parseSliceOfStructs`, given pointwise raw-irrelevance
and idempotence for the struct callback. -/
theorem parseSliceOfStructs_I2
    (rs : Val → Options → RawMap → (Except String Val) × RawMap)
    (hrs1 : ∀ v opts raw raw', (rs v opts raw).1 = (rs v opts raw').1)
    (hrs2 : ∀ v opts raw w raw₁, rs v opts raw = (.ok w, raw₁) →
        ∀ raw₂, (rs w opts raw₂).1 = .ok w)
    (fs : List FieldD) (v : Val) (opts0 : Options) (raw : RawMap) (w : Val) (raw₁ : RawMap)
    (h : parseSliceOfStructs rs fs v opts0 raw = (.ok w, raw₁)) :
    ∀ raw₂ : RawMap, (parseSliceOfStructs rs fs w opts0 raw₂).1 = .ok w := by
  intro raw₂
  rw [parseSliceOfStructs] at h
  rw [parseSliceOfStructs]
  set opts1 := { opts0 with Prefix := ensureTrailingUnderscore opts0.Prefix } with hopts
  set idxs := opts1.filterPrefixedEnvVars with hidxs
  split_ifs at h ⊢ with he
  · have hw : v = w := by simpa using congrArg Prod.fst h
    subst hw
    rfl
  · split at h
    · exact absurd h (by simp)
    · rename_i res m1 heq
      have hw : updateReference v res = w := by simpa using congrArg Prod.fst h
      cases v with
      | vSlice old =>
        have hw2 : Val.vSlice res = w := hw
        subst hw2
        simp only [sliceOld, sliceInit, sliceIsPointer, Bool.false_eq_true, if_false] at heq
        have hlen := populateSliceGo_ok_length rs (zeroStruct fs) old old.length idxs opts1
          (sliceCapacity (Val.vSlice old) idxs) 0 raw res m1 heq
        have hcap : sliceCapacity (Val.vSlice res) idxs
            = sliceCapacity (Val.vSlice old) idxs := by
          have hlen2 : res.length
              = (if old.length > sliceNewLength idxs then old.length
                 else sliceNewLength idxs) := by
            simpa [sliceCapacity, sliceInit, sliceOld, sliceIsPointer] using hlen
          simp only [sliceCapacity, sliceInit, sliceOld, sliceIsPointer,
            Bool.false_eq_true, if_false]
          split_ifs at hlen2 ⊢ <;> omega
        rcases hq : populateSliceGo rs (zeroStruct fs) (sliceOld (Val.vSlice res))
            (sliceInit (Val.vSlice res)) idxs opts1 0
            (sliceCapacity (Val.vSlice res) idxs) raw₂ with ⟨r, m⟩
        have hq2 : populateSliceGo rs (zeroStruct fs) res res.length idxs opts1 0
            (sliceCapacity (Val.vSlice res) idxs) raw₂ = (r, m) := hq
        rw [hcap] at hq2
        have hr : r = .ok res := by
          have hh := populateSliceGo_restart rs hrs2 (zeroStruct fs) idxs opts1
            (sliceCapacity (Val.vSlice old) idxs) old old.length raw m1 res heq raw₂
          rw [hq2] at hh
          exact hh
        subst hr
        rfl
      | vPtr op =>
        cases op with
        | none =>
          have hw2 : Val.vPtr none = w := hw
          subst hw2
          rcases hq : populateSliceGo rs (zeroStruct fs) (sliceOld (Val.vPtr none))
              (sliceInit (Val.vPtr none)) idxs opts1 0
              (sliceCapacity (Val.vPtr none) idxs) raw₂ with ⟨r, m⟩
          have hr : r = .ok res := by
            have hh := populateSliceGo_I1 rs hrs1 (zeroStruct fs) (sliceOld (Val.vPtr none))
              (sliceInit (Val.vPtr none)) idxs opts1 (sliceCapacity (Val.vPtr none) idxs)
              0 raw₂ raw
            rw [hq, heq] at hh
            exact hh
          subst hr
          rfl
        | some x =>
          have hw2 : Val.vPtr (some (Val.vSlice res)) = w := hw
          subst hw2
          rcases hq : populateSliceGo rs (zeroStruct fs)
              (sliceOld (Val.vPtr (some (Val.vSlice res))))
              (sliceInit (Val.vPtr (some (Val.vSlice res)))) idxs opts1 0
              (sliceCapacity (Val.vPtr (some (Val.vSlice res))) idxs) raw₂ with ⟨r, m⟩
          have hq2 : populateSliceGo rs (zeroStruct fs) (sliceOld (Val.vPtr (some x)))
              (sliceInit (Val.vPtr (some x))) idxs opts1 0
              (sliceCapacity (Val.vPtr (some x)) idxs) raw₂ = (r, m) := hq
          have hr : r = .ok res := by
            have hh := populateSliceGo_I1 rs hrs1 (zeroStruct fs)
              (sliceOld (Val.vPtr (some x))) (sliceInit (Val.vPtr (some x))) idxs opts1
              (sliceCapacity (Val.vPtr (some x)) idxs) 0 raw₂ raw
            rw [hq2, heq] at hh
            exact hh
          subst hr
          rfl
      | vStr s =>
        have hw2 : Val.vSlice res = w := hw
        subst hw2
        have heq2 : populateSliceGo rs (zeroStruct fs) [] 0 idxs opts1 0
            (sliceCapacity (Val.vStr s) idxs) raw = (.ok res, m1) := heq
        have hlen := populateSliceGo_ok_length rs (zeroStruct fs) [] 0 idxs opts1
          (sliceCapacity (Val.vStr s) idxs) 0 raw res m1 heq2
        have hcap : sliceCapacity (Val.vSlice res) idxs
            = sliceCapacity (Val.vStr s) idxs := by
          have hlen2 : res.length
              = (if (0 : Nat) > sliceNewLength idxs then 0 else sliceNewLength idxs) := by
            simpa [sliceCapacity, sliceInit, sliceOld, sliceIsPointer] using hlen
          simp only [sliceCapacity, sliceInit, sliceOld, sliceIsPointer,
            Bool.false_eq_true, if_false, List.length_nil]
          split_ifs at hlen2 ⊢ <;> omega
        rcases hq : populateSliceGo rs (zeroStruct fs) (sliceOld (Val.vSlice res))
            (sliceInit (Val.vSlice res)) idxs opts1 0
            (sliceCapacity (Val.vSlice res) idxs) raw₂ with ⟨r, m⟩
        have hq2 : populateSliceGo rs (zeroStruct fs) res res.length idxs opts1 0
            (sliceCapacity (Val.vSlice res) idxs) raw₂ = (r, m) := hq
        rw [hcap] at hq2
        have hr : r = .ok res := by
          have hh := populateSliceGo_restart rs hrs2 (zeroStruct fs) idxs opts1
            (sliceCapacity (Val.vStr s) idxs) [] 0 raw m1 res heq2 raw₂
          rw [hq2] at hh
          exact hh
        subst hr
        rfl
      | vInt n =>
        have hw2 : Val.vSlice res = w := hw
        subst hw2
        have heq2 : populateSliceGo rs (zeroStruct fs) [] 0 idxs opts1 0
            (sliceCapacity (Val.vInt n) idxs) raw = (.ok res, m1) := heq
        have hlen := populateSliceGo_ok_length rs (zeroStruct fs) [] 0 idxs opts1
          (sliceCapacity (Val.vInt n) idxs) 0 raw res m1 heq2
        have hcap : sliceCapacity (Val.vSlice res) idxs
            = sliceCapacity (Val.vInt n) idxs := by
          have hlen2 : res.length
              = (if (0 : Nat) > sliceNewLength idxs then 0 else sliceNewLength idxs) := by
            simpa [sliceCapacity, sliceInit, sliceOld, sliceIsPointer] using hlen
          simp only [sliceCapacity, sliceInit, sliceOld, sliceIsPointer,
            Bool.false_eq_true, if_false, List.length_nil]
          split_ifs at hlen2 ⊢ <;> omega
        rcases hq : populateSliceGo rs (zeroStruct fs) (sliceOld (Val.vSlice res))
            (sliceInit (Val.vSlice res)) idxs opts1 0
            (sliceCapacity (Val.vSlice res) idxs) raw₂ with ⟨r, m⟩
        have hq2 : populateSliceGo rs (zeroStruct fs) res res.length idxs opts1 0
            (sliceCapacity (Val.vSlice res) idxs) raw₂ = (r, m) := hq
        rw [hcap] at hq2
        have hr : r = .ok res := by
          have hh := populateSliceGo_restart rs hrs2 (zeroStruct fs) idxs opts1
            (sliceCapacity (Val.vInt n) idxs) [] 0 raw m1 res heq2 raw₂
          rw [hq2] at hh
          exact hh
        subst hr
        rfl
      | vStruct vs =>
        have hw2 : Val.vSlice res = w := hw
        subst hw2
        have heq2 : populateSliceGo rs (zeroStruct fs) [] 0 idxs opts1 0
            (sliceCapacity (Val.vStruct vs) idxs) raw = (.ok res, m1) := heq
        have hlen := populateSliceGo_ok_length rs (zeroStruct fs) [] 0 idxs opts1
          (sliceCapacity (Val.vStruct vs) idxs) 0 raw res m1 heq2
        have hcap : sliceCapacity (Val.vSlice res) idxs
            = sliceCapacity (Val.vStruct vs) idxs := by
          have hlen2 : res.length
              = (if (0 : Nat) > sliceNewLength idxs then 0 else sliceNewLength idxs) := by
            simpa [sliceCapacity, sliceInit, sliceOld, sliceIsPointer] using hlen
          simp only [sliceCapacity, sliceInit, sliceOld, sliceIsPointer,
            Bool.false_eq_true, if_false, List.length_nil]
          split_ifs at hlen2 ⊢ <;> omega
        rcases hq : populateSliceGo rs (zeroStruct fs) (sliceOld (Val.vSlice res))
            (sliceInit (Val.vSlice res)) idxs opts1 0
            (sliceCapacity (Val.vSlice res) idxs) raw₂ with ⟨r, m⟩
        have hq2 : populateSliceGo rs (zeroStruct fs) res res.length idxs opts1 0
            (sliceCapacity (Val.vSlice res) idxs) raw₂ = (r, m) := hq
        rw [hcap] at hq2
        have hr : r = .ok res := by
          have hh := populateSliceGo_restart rs hrs2 (zeroStruct fs) idxs opts1
            (sliceCapacity (Val.vStruct vs) idxs) [] 0 raw m1 res heq2 raw₂
          rw [hq2] at hh
          exact hh
        subst hr
        rfl

/-- `initialisePointer` only changes a nil pointer value. -/
theorem initialisePointer_not_nil (v : Val) (t : Ty) (hv : v ≠ .vPtr none) :
    initialisePointer v t = v := by
  cases v with
  | vPtr op =>
    cases op with
    | none => exact absurd rfl hv
    | some x => cases t <;> rfl
  | vStr s => cases t <;> rfl
  | vInt n => cases t <;> rfl
  | vStruct vs => cases t <;> rfl
  | vSlice es => cases t <;> rfl

/-- `initialisePointer` only changes pointer-typed fields. -/
theorem initialisePointer_nonptr (v : Val) (t : Ty) (ht : ∀ et : Ty, t ≠ .ptrT et) :
    initialisePointer v t = v := by
  cases v with
  | vPtr op =>
    cases op with
    | none =>
      cases t with
      | ptrT et => exact absurd rfl (ht et)
      | strT => rfl
      | intT => rfl
      | structT anon fs => rfl
      | sliceStructT fs => rfl
    | some x => cases t <;> rfl
  | vStr s => cases t <;> rfl
  | vInt n => cases t <;> rfl
  | vStruct vs => cases t <;> rfl
  | vSlice es => cases t <;> rfl

/-- A non-empty resolved value on a struct-, slice- or
pointer-to-pointer-shaped field can never be written: `setFieldGo`
succeeds on such a field only with the empty value, leaving the field
untouched. -/
theorem setFieldGo_big (v : Val) (fd : FieldD) (val : String) (v2 : Val)
    (hbig : match fd.ty with
      | .structT _ _ => True
      | .sliceStructT _ => True
      | .ptrT (.structT _ _) => True
      | .ptrT (.sliceStructT _) => True
      | .ptrT (.ptrT _) => True
      | _ => False)
    (h : setFieldGo v fd (.ok val) = .ok v2) : val = "" ∧ v2 = v := by
  by_cases hval : val = ""
  · subst hval
    have h2 : (Except.ok v : Except String Val) = .ok v2 := h
    injection h2 with h2
    exact ⟨rfl, h2.symm⟩
  · exfalso
    rcases fd with ⟨c, e, d, p, t⟩
    cases t with
    | strT => exact hbig
    | intT => exact hbig
    | structT anon fs =>
      cases v with
      | vPtr op =>
        cases op <;> simp_all [setFieldGo, applyParser, resolvePointer, setResolved,
          handleSpecialTypes, handleSlice, zeroVal, FieldD.ty]
      | _ =>
        simp_all [setFieldGo, applyParser, resolvePointer, setResolved,
          handleSpecialTypes, handleSlice, zeroVal, FieldD.ty]
    | sliceStructT fs =>
      cases v with
      | vPtr op =>
        cases op <;> simp_all [setFieldGo, applyParser, resolvePointer, setResolved,
          handleSpecialTypes, handleSlice, zeroVal, FieldD.ty]
      | _ =>
        simp_all [setFieldGo, applyParser, resolvePointer, setResolved,
          handleSpecialTypes, handleSlice, zeroVal, FieldD.ty]
    | ptrT et =>
      cases et with
      | strT => exact hbig
      | intT => exact hbig
      | structT anon fs =>
        cases v with
        | vPtr op =>
          cases op <;> simp_all [setFieldGo, applyParser, resolvePointer, setResolved,
            handleSpecialTypes, handleSlice, zeroVal, FieldD.ty]
        | _ =>
          simp_all [setFieldGo, applyParser, resolvePointer, setResolved,
            handleSpecialTypes, handleSlice, zeroVal, FieldD.ty]
      | ptrT et2 =>
        cases v with
        | vPtr op =>
          cases op <;> simp_all [setFieldGo, applyParser, resolvePointer, setResolved,
            handleSpecialTypes, handleSlice, zeroVal, FieldD.ty]
        | _ =>
          simp_all [setFieldGo, applyParser, resolvePointer, setResolved,
            handleSpecialTypes, handleSlice, zeroVal, FieldD.ty]
      | sliceStructT fs =>
        cases v with
        | vPtr op =>
          cases op <;> simp_all [setFieldGo, applyParser, resolvePointer, setResolved,
            handleSpecialTypes, handleSlice, zeroVal, FieldD.ty]
        | _ =>
          simp_all [setFieldGo, applyParser, resolvePointer, setResolved,
            handleSpecialTypes, handleSlice, zeroVal, FieldD.ty]

/-- A non-empty value written through a pointer-to-scalar field leaves a
non-nil pointer. -/
theorem setFieldGo_ptr_scalar (v : Val) (c : Bool) (e : Option String) (d : String)
    (p : Option String) (et : Ty) (val : String) (v2 : Val)
    (het : et = Ty.strT ∨ et = Ty.intT) (hval : val ≠ "")
    (h : setFieldGo v (.mk c e d p (.ptrT et)) (.ok val) = .ok v2) :
    ∃ x : Val, v2 = Val.vPtr (some x) := by
  rcases het with het | het <;> subst het
  · cases v with
    | vPtr op =>
      cases op with
      | none =>
        refine ⟨.vStr val, ?_⟩
        have h2 : (Except.ok (Val.vPtr (some (.vStr val))) : Except String Val)
            = .ok v2 := by
          simpa [setFieldGo, hval, applyParser, resolvePointer, setResolved,
            zeroVal, FieldD.ty] using h
        injection h2 with h2
        exact h2.symm
      | some x =>
        refine ⟨.vStr val, ?_⟩
        have h2 : (Except.ok (Val.vPtr (some (.vStr val))) : Except String Val)
            = .ok v2 := by
          simpa [setFieldGo, hval, applyParser, resolvePointer, setResolved,
            zeroVal, FieldD.ty] using h
        injection h2 with h2
        exact h2.symm
    | _ =>
      exact absurd h (by simp [setFieldGo, hval, applyParser, resolvePointer, setResolved,
        handleSpecialTypes, handleSlice, FieldD.ty])
  · rcases hp : parsersInt val with e' | n
    · exfalso
      cases v with
      | vPtr op =>
        cases op <;> simp_all [setFieldGo, applyParser, resolvePointer, setResolved,
          handleSpecialTypes, handleSlice, zeroVal, FieldD.ty]
      | _ =>
        simp_all [setFieldGo, applyParser, resolvePointer, setResolved,
          handleSpecialTypes, handleSlice, zeroVal, FieldD.ty]
    · cases v with
      | vPtr op =>
        cases op with
        | none =>
          refine ⟨.vInt n, ?_⟩
          have h2 : (Except.ok (Val.vPtr (some (.vInt n))) : Except String Val)
              = .ok v2 := by
            simpa [setFieldGo, hval, applyParser, resolvePointer, setResolved,
              zeroVal, hp, FieldD.ty] using h
          injection h2 with h2
          exact h2.symm
        | some x =>
          refine ⟨.vInt n, ?_⟩
          have h2 : (Except.ok (Val.vPtr (some (.vInt n))) : Except String Val)
              = .ok v2 := by
            simpa [setFieldGo, hval, applyParser, resolvePointer, setResolved,
              zeroVal, hp, FieldD.ty] using h
          injection h2 with h2
          exact h2.symm
      | _ =>
        exact absurd h (by simp [setFieldGo, hval, applyParser, resolvePointer, setResolved,
          handleSpecialTypes, handleSlice, hp, FieldD.ty])

/-- `handlePointerStruct` is the identity on every configuration other
than a non-nil pointer to a struct or an addressable anonymous struct. -/
theorem handlePointerStruct_skip
    (recStruct : List FieldD → Val → Options → RawMap → (Except String Val) × RawMap)
    (v : Val) (fd : FieldD) (opts : Options) (raw : RawMap)
    (ht : match fd.ty with
      | .ptrT (.structT _ _) => False
      | .structT true _ => False
      | _ => True) :
    handlePointerStruct recStruct v fd opts raw = (.ok v, raw) := by
  rcases fd with ⟨c, e, d, p, t⟩
  cases t with
  | strT => cases v with
    | vPtr op => cases op with
      | none => rfl
      | some x => cases x <;> rfl
    | _ => rfl
  | intT => cases v with
    | vPtr op => cases op with
      | none => rfl
      | some x => cases x <;> rfl
    | _ => rfl
  | sliceStructT fs => cases v with
    | vPtr op => cases op with
      | none => rfl
      | some x => cases x <;> rfl
    | _ => rfl
  | structT anon fs =>
    cases anon with
    | true => exact ht.elim
    | false => cases v with
      | vPtr op => cases op with
        | none => rfl
        | some x => cases x <;> rfl
      | _ => rfl
  | ptrT et =>
    cases et with
    | structT anon fs => exact ht.elim
    | strT => cases v with
      | vPtr op => cases op with
        | none => rfl
        | some x => cases x <;> rfl
      | _ => rfl
    | intT => cases v with
      | vPtr op => cases op with
        | none => rfl
        | some x => cases x <;> rfl
      | _ => rfl
    | ptrT et2 => cases v with
      | vPtr op => cases op with
        | none => rfl
        | some x => cases x <;> rfl
      | _ => rfl
    | sliceStructT fs => cases v with
      | vPtr op => cases op with
        | none => rfl
        | some x => cases x <;> rfl
      | _ => rfl

/-- A successful `parseStruct` on a non-nil struct pointer yields a
non-nil struct pointer. -/
theorem parseStruct_shape_ptr
    (rf : List FieldD → List Val → Options → RawMap → (Except String (List Val)) × RawMap)
    (fs : List FieldD) (vs : List Val) (opts : Options) (raw : RawMap) (r : Val)
    (raw₁ : RawMap)
    (h : parseStruct rf fs (.vPtr (some (.vStruct vs))) opts raw = (.ok r, raw₁)) :
    ∃ ws : List Val, r = .vPtr (some (.vStruct ws)) := by
  rw [parseStruct] at h
  split at h
  · exact absurd h (by simp)
  · rename_i ws m heq
    exact ⟨ws, by simpa using (congrArg Prod.fst h).symm⟩

/-- A successful `parseStruct` on a plain struct yields a struct. -/
theorem parseStruct_shape_struct
    (rf : List FieldD → List Val → Options → RawMap → (Except String (List Val)) × RawMap)
    (fs : List FieldD) (vs : List Val) (opts : Options) (raw : RawMap) (r : Val)
    (raw₁ : RawMap)
    (h : parseStruct rf fs (.vStruct vs) opts raw = (.ok r, raw₁)) :
    ∃ ws : List Val, r = .vStruct ws := by
  rw [parseStruct] at h
  split at h
  · exact absurd h (by simp)
  · rename_i ws m heq
    exact ⟨ws, by simpa using (congrArg Prod.fst h).symm⟩

/-- Raw-map irrelevance of `handlePointerStruct`, given it for the struct
binder. -/
theorem handlePointerStruct_I1
    (recStruct : List FieldD → Val → Options → RawMap → (Except String Val) × RawMap)
    (hrec : ∀ fs v opts raw raw', noExpandFields fs = true →
        (recStruct fs v opts raw).1 = (recStruct fs v opts raw').1)
    (v : Val) (fd : FieldD) (opts : Options) (raw raw' : RawMap)
    (hne : noExpandFD fd = true) :
    (handlePointerStruct recStruct v fd opts raw).1
      = (handlePointerStruct recStruct v fd opts raw').1 := by
  rcases fd with ⟨c, e, d, p, t⟩
  cases t with
  | strT =>
    rw [handlePointerStruct_skip recStruct v _ opts raw trivial,
      handlePointerStruct_skip recStruct v _ opts raw' trivial]
  | intT =>
    rw [handlePointerStruct_skip recStruct v _ opts raw trivial,
      handlePointerStruct_skip recStruct v _ opts raw' trivial]
  | sliceStructT fs =>
    rw [handlePointerStruct_skip recStruct v _ opts raw trivial,
      handlePointerStruct_skip recStruct v _ opts raw' trivial]
  | structT anon fs =>
    cases anon with
    | false =>
      rw [handlePointerStruct_skip recStruct v _ opts raw trivial,
        handlePointerStruct_skip recStruct v _ opts raw' trivial]
    | true =>
      cases v with
      | vStruct vs =>
        have hfs : noExpandFields fs = true := by
          simp only [noExpandFD, noExpandTy, Bool.and_eq_true] at hne
          exact hne.2
        exact hrec fs (.vStruct vs)
          (Options.withPrefix opts ⟨c, e, d, p, .structT true fs⟩) raw raw' hfs
      | vPtr op => cases op with
        | none => rfl
        | some x => cases x <;> rfl
      | _ => rfl
  | ptrT et =>
    cases et with
    | strT =>
      rw [handlePointerStruct_skip recStruct v _ opts raw trivial,
        handlePointerStruct_skip recStruct v _ opts raw' trivial]
    | intT =>
      rw [handlePointerStruct_skip recStruct v _ opts raw trivial,
        handlePointerStruct_skip recStruct v _ opts raw' trivial]
    | ptrT et2 =>
      rw [handlePointerStruct_skip recStruct v _ opts raw trivial,
        handlePointerStruct_skip recStruct v _ opts raw' trivial]
    | sliceStructT fs =>
      rw [handlePointerStruct_skip recStruct v _ opts raw trivial,
        handlePointerStruct_skip recStruct v _ opts raw' trivial]
    | structT anon fs =>
      cases v with
      | vPtr op =>
        cases op with
        | none => rfl
        | some x =>
          cases x with
          | vStruct vs =>
            have hfs : noExpandFields fs = true := by
              simp only [noExpandFD, noExpandTy, Bool.and_eq_true] at hne
              exact hne.2
            exact hrec fs (.vPtr (some (.vStruct vs)))
              (Options.withPrefix opts ⟨c, e, d, p, .ptrT (.structT anon fs)⟩) raw raw' hfs
          | _ => rfl
      | _ => rfl

/-- On a scalar field `handleStructOrSlice` changes nothing. -/
theorem handleStructOrSlice_scalar
    (recStruct recSlice : List FieldD → Val → Options → RawMap → (Except String Val) × RawMap)
    (v : Val) (fd : FieldD) (opts : Options) (tags : FieldTags) (raw : RawMap)
    (ht : fd.ty = .strT ∨ fd.ty = .intT) :
    handleStructOrSlice recStruct recSlice v fd opts tags raw = (.ok v, raw) := by
  rcases fd with ⟨c, e, d, p, t⟩
  simp only [FieldD.ty] at ht
  rcases ht with ht | ht <;> subst ht <;>
    (cases v with
     | vPtr op =>
       cases op with
       | none => simp [handleStructOrSlice, isSliceOfStructs, FieldD.ty, ite_self]
       | some x =>
         cases x <;> simp [handleStructOrSlice, isSliceOfStructs, FieldD.ty, ite_self]
     | _ => simp [handleStructOrSlice, isSliceOfStructs, FieldD.ty, ite_self])

/-- On a pointer field whose pointee is a scalar or another pointer,
`handleStructOrSlice` changes nothing once the pointer is non-nil. -/
theorem handleStructOrSlice_ptr_inert
    (recStruct recSlice : List FieldD → Val → Options → RawMap → (Except String Val) × RawMap)
    (v : Val) (fd : FieldD) (opts : Options) (tags : FieldTags) (raw : RawMap)
    (ht : match fd.ty with
      | .ptrT .strT => True
      | .ptrT .intT => True
      | .ptrT (.ptrT _) => True
      | _ => False)
    (hv : v ≠ .vPtr none) :
    handleStructOrSlice recStruct recSlice v fd opts tags raw = (.ok v, raw) := by
  rcases fd with ⟨c, e, d, p, t⟩
  cases t with
  | strT => exact ht.elim
  | intT => exact ht.elim
  | structT anon fs => exact ht.elim
  | sliceStructT fs => exact ht.elim
  | ptrT et =>
    cases et with
    | structT anon fs => exact ht.elim
    | sliceStructT fs => exact ht.elim
    | strT =>
      cases v with
      | vPtr op =>
        cases op with
        | none => exact absurd rfl hv
        | some x =>
          cases x <;> simp [handleStructOrSlice, isSliceOfStructs, FieldD.ty, ite_self]
      | _ => simp [handleStructOrSlice, isSliceOfStructs, FieldD.ty, ite_self]
    | intT =>
      cases v with
      | vPtr op =>
        cases op with
        | none => exact absurd rfl hv
        | some x =>
          cases x <;> simp [handleStructOrSlice, isSliceOfStructs, FieldD.ty, ite_self]
      | _ => simp [handleStructOrSlice, isSliceOfStructs, FieldD.ty, ite_self]
    | ptrT et2 =>
      cases v with
      | vPtr op =>
        cases op with
        | none => exact absurd rfl hv
        | some x =>
          cases x <;> simp [handleStructOrSlice, isSliceOfStructs, FieldD.ty, ite_self]
      | _ => simp [handleStructOrSlice, isSliceOfStructs, FieldD.ty, ite_self]

/-- On a slice-of-structs field `handleStructOrSlice` dispatches to the
slice binder under the extended prefix. -/
theorem handleStructOrSlice_slice
    (recStruct recSlice : List FieldD → Val → Options → RawMap → (Except String Val) × RawMap)
    (v : Val) (fd : FieldD) (opts : Options) (tags : FieldTags) (raw : RawMap)
    (fs : List FieldD)
    (ht : fd.ty = .sliceStructT fs ∨ fd.ty = .ptrT (.sliceStructT fs)) :
    handleStructOrSlice recStruct recSlice v fd opts tags raw
      = recSlice fs v (opts.withPrefix fd) raw := by
  rcases fd with ⟨c, e, d, p, t⟩
  simp only [FieldD.ty] at ht
  rcases ht with ht | ht <;> subst ht <;>
    (cases v with
     | vPtr op =>
       cases op with
       | none => simp [handleStructOrSlice, isSliceOfStructs, sliceStructFields, FieldD.ty]
       | some x =>
         cases x <;>
           simp [handleStructOrSlice, isSliceOfStructs, sliceStructFields, FieldD.ty]
     | _ => simp [handleStructOrSlice, isSliceOfStructs, sliceStructFields, FieldD.ty])

/-- Raw-map irrelevance of `handleStructOrSlice`, given it for the struct
and slice binders. -/
theorem handleStructOrSlice_I1
    (recStruct recSlice : List FieldD → Val → Options → RawMap → (Except String Val) × RawMap)
    (hrec : ∀ fs v opts raw raw', noExpandFields fs = true →
        (recStruct fs v opts raw).1 = (recStruct fs v opts raw').1)
    (hsl : ∀ fs v opts raw raw', noExpandFields fs = true →
        (recSlice fs v opts raw).1 = (recSlice fs v opts raw').1)
    (v : Val) (fd : FieldD) (opts : Options) (tags : FieldTags) (raw raw' : RawMap)
    (hne : noExpandFD fd = true) :
    (handleStructOrSlice recStruct recSlice v fd opts tags raw).1
      = (handleStructOrSlice recStruct recSlice v fd opts tags raw').1 := by
  rcases fd with ⟨c, e, d, p, t⟩
  cases t with
  | strT =>
    rw [handleStructOrSlice_scalar recStruct recSlice v ⟨c, e, d, p, .strT⟩ opts tags raw
        (Or.inl rfl),
      handleStructOrSlice_scalar recStruct recSlice v ⟨c, e, d, p, .strT⟩ opts tags raw'
        (Or.inl rfl)]
  | intT =>
    rw [handleStructOrSlice_scalar recStruct recSlice v ⟨c, e, d, p, .intT⟩ opts tags raw
        (Or.inr rfl),
      handleStructOrSlice_scalar recStruct recSlice v ⟨c, e, d, p, .intT⟩ opts tags raw'
        (Or.inr rfl)]
  | sliceStructT fs =>
    have hfs : noExpandFields fs = true := by
      simp only [noExpandFD, noExpandTy, Bool.and_eq_true] at hne
      exact hne.2
    rw [handleStructOrSlice_slice recStruct recSlice v ⟨c, e, d, p, .sliceStructT fs⟩
        opts tags raw fs (Or.inl rfl),
      handleStructOrSlice_slice recStruct recSlice v ⟨c, e, d, p, .sliceStructT fs⟩
        opts tags raw' fs (Or.inl rfl)]
    exact hsl fs v _ raw raw' hfs
  | structT anon fs =>
    have hfs : noExpandFields fs = true := by
      simp only [noExpandFD, noExpandTy, Bool.and_eq_true] at hne
      exact hne.2
    cases v with
    | vStruct vs =>
      exact hrec fs (.vStruct vs)
        (Options.withPrefix opts ⟨c, e, d, p, .structT anon fs⟩) raw raw' hfs
    | vPtr op =>
      cases op with
      | none => simp [handleStructOrSlice, isSliceOfStructs, FieldD.ty, apply_ite]
      | some x =>
        cases x <;> simp [handleStructOrSlice, isSliceOfStructs, FieldD.ty, apply_ite]
    | _ => simp [handleStructOrSlice, isSliceOfStructs, FieldD.ty, apply_ite]
  | ptrT et =>
    cases et with
    | sliceStructT fs =>
      have hfs : noExpandFields fs = true := by
        simp only [noExpandFD, noExpandTy, Bool.and_eq_true] at hne
        exact hne.2
      rw [handleStructOrSlice_slice recStruct recSlice v
          ⟨c, e, d, p, .ptrT (.sliceStructT fs)⟩ opts tags raw fs (Or.inr rfl),
        handleStructOrSlice_slice recStruct recSlice v
          ⟨c, e, d, p, .ptrT (.sliceStructT fs)⟩ opts tags raw' fs (Or.inr rfl)]
      exact hsl fs v _ raw raw' hfs
    | structT anon fs =>
      have hfs : noExpandFields fs = true := by
        simp only [noExpandFD, noExpandTy, Bool.and_eq_true] at hne
        exact hne.2
      cases v with
      | vPtr op =>
        cases op with
        | none => simp [handleStructOrSlice, isSliceOfStructs, FieldD.ty, apply_ite]
        | some x =>
          cases x with
          | vStruct vs =>
            exact hrec fs (.vPtr (some (.vStruct vs)))
              (Options.withPrefix opts ⟨c, e, d, p, .ptrT (.structT anon fs)⟩) raw raw' hfs
          | _ => simp [handleStructOrSlice, isSliceOfStructs, FieldD.ty, apply_ite]
      | _ => simp [handleStructOrSlice, isSliceOfStructs, FieldD.ty, apply_ite]
    | strT =>
      cases v with
      | vPtr op =>
        cases op with
        | none => simp [handleStructOrSlice, isSliceOfStructs, FieldD.ty, apply_ite]
        | some x =>
          cases x <;> simp [handleStructOrSlice, isSliceOfStructs, FieldD.ty, apply_ite]
      | _ => simp [handleStructOrSlice, isSliceOfStructs, FieldD.ty, apply_ite]
    | intT =>
      cases v with
      | vPtr op =>
        cases op with
        | none => simp [handleStructOrSlice, isSliceOfStructs, FieldD.ty, apply_ite]
        | some x =>
          cases x <;> simp [handleStructOrSlice, isSliceOfStructs, FieldD.ty, apply_ite]
      | _ => simp [handleStructOrSlice, isSliceOfStructs, FieldD.ty, apply_ite]
    | ptrT et2 =>
      cases v with
      | vPtr op =>
        cases op with
        | none => simp [handleStructOrSlice, isSliceOfStructs, FieldD.ty, apply_ite]
        | some x =>
          cases x <;> simp [handleStructOrSlice, isSliceOfStructs, FieldD.ty, apply_ite]
      | _ => simp [handleStructOrSlice, isSliceOfStructs, FieldD.ty, apply_ite]

/-- Idempotence of `handlePointerStruct` over the struct binder: its
output, fed back in, is bound again to itself. -/
theorem handlePointerStruct_I2
    (rf : List FieldD → List Val → Options → RawMap → (Except String (List Val)) × RawMap)
    (hrf2 : ∀ fds vs opts raw ws raw₁, noExpandFields fds = true →
        rf fds vs opts raw = (.ok ws, raw₁) → ∀ raw₂, (rf fds ws opts raw₂).1 = .ok ws)
    (v : Val) (fd : FieldD) (opts : Options) (raw : RawMap) (v1 : Val) (m1 : RawMap)
    (hne : noExpandFD fd = true)
    (h : handlePointerStruct (parseStruct rf) v fd opts raw = (.ok v1, m1)) :
    ∀ raw₂ : RawMap, (handlePointerStruct (parseStruct rf) v1 fd opts raw₂).1 = .ok v1 := by
  intro raw₂
  rcases fd with ⟨c, e, d, p, t⟩
  by_cases hskip : (match (⟨c, e, d, p, t⟩ : FieldD).ty, v with
    | Ty.ptrT (Ty.structT _ _), Val.vPtr (some (Val.vStruct _)) => False
    | Ty.structT true _, Val.vStruct _ => False
    | _, _ => True)
  · have hv1 : v = v1 := by
      have h2 : handlePointerStruct (parseStruct rf) v ⟨c, e, d, p, t⟩ opts raw
          = (.ok v, raw) := by
        rcases hmt : t with _ | _ | ⟨anon, fs⟩ | et | fs
        · exact handlePointerStruct_skip _ _ _ _ _ trivial
        · exact handlePointerStruct_skip _ _ _ _ _ trivial
        · cases anon with
          | false => exact handlePointerStruct_skip _ _ _ _ _ trivial
          | true =>
            cases v with
            | vStruct vs => exact absurd trivial (by subst hmt; simpa using hskip)
            | vPtr op =>
              cases op with
              | none => rfl
              | some x => cases x <;> rfl
            | _ => rfl
        · cases et with
          | structT anon fs =>
            cases v with
            | vPtr op =>
              cases op with
              | none => rfl
              | some x =>
                cases x with
                | vStruct vs => exact absurd trivial (by subst hmt; simpa using hskip)
                | _ => rfl
            | _ => rfl
          | strT => exact handlePointerStruct_skip _ _ _ _ _ trivial
          | intT => exact handlePointerStruct_skip _ _ _ _ _ trivial
          | ptrT et2 => exact handlePointerStruct_skip _ _ _ _ _ trivial
          | sliceStructT fs2 => exact handlePointerStruct_skip _ _ _ _ _ trivial
        · exact handlePointerStruct_skip _ _ _ _ _ trivial
      rw [h2] at h
      simpa using congrArg Prod.fst h
    subst hv1
    -- the rerun takes the same skip path
    have h2 : handlePointerStruct (parseStruct rf) v ⟨c, e, d, p, t⟩ opts raw₂
        = (.ok v, raw₂) := by
      rcases hmt : t with _ | _ | ⟨anon, fs⟩ | et | fs
      · exact handlePointerStruct_skip _ _ _ _ _ trivial
      · exact handlePointerStruct_skip _ _ _ _ _ trivial
      · cases anon with
        | false => exact handlePointerStruct_skip _ _ _ _ _ trivial
        | true =>
          cases v with
          | vStruct vs => exact absurd trivial (by subst hmt; simpa using hskip)
          | vPtr op =>
            cases op with
            | none => rfl
            | some x => cases x <;> rfl
          | _ => rfl
      · cases et with
        | structT anon fs =>
          cases v with
          | vPtr op =>
            cases op with
            | none => rfl
            | some x =>
              cases x with
              | vStruct vs => exact absurd trivial (by subst hmt; simpa using hskip)
              | _ => rfl
          | _ => rfl
        | strT => exact handlePointerStruct_skip _ _ _ _ _ trivial
        | intT => exact handlePointerStruct_skip _ _ _ _ _ trivial
        | ptrT et2 => exact handlePointerStruct_skip _ _ _ _ _ trivial
        | sliceStructT fs2 => exact handlePointerStruct_skip _ _ _ _ _ trivial
      · exact handlePointerStruct_skip _ _ _ _ _ trivial
    rw [h2]
  · -- an active configuration
    rcases hmt : t with _ | _ | ⟨anon, fs⟩ | et | fs <;> subst hmt <;>
      simp only [FieldD.ty] at hskip
    · exact absurd trivial hskip
    · exact absurd trivial hskip
    · -- structT anon fs, so anon = true and v = vStruct vs
      cases anon with
      | false => exact absurd trivial (by simpa using hskip)
      | true =>
        cases v with
        | vStruct vs =>
          have hfs : noExpandFields fs = true := by
            simp only [noExpandFD, noExpandTy, Bool.and_eq_true] at hne
            exact hne.2
          have h' : parseStruct rf fs (.vStruct vs)
              (Options.withPrefix opts ⟨c, e, d, p, .structT true fs⟩) raw
              = (.ok v1, m1) := h
          obtain ⟨ws, hws⟩ := parseStruct_shape_struct rf fs vs _ raw v1 m1 h'
          subst hws
          exact parseStruct_I2 rf hrf2 fs (.vStruct vs) _ raw (.vStruct ws) m1 hfs h' raw₂
        | vStr s => exact absurd trivial (by simpa using hskip)
        | vInt n => exact absurd trivial (by simpa using hskip)
        | vPtr op => exact absurd trivial (by simpa using hskip)
        | vSlice es => exact absurd trivial (by simpa using hskip)
    · cases et with
      | structT anon fs =>
        cases v with
        | vPtr op =>
          cases op with
          | some x =>
            cases x with
            | vStruct vs =>
              have hfs : noExpandFields fs = true := by
                simp only [noExpandFD, noExpandTy, Bool.and_eq_true] at hne
                exact hne.2
              have h' : parseStruct rf fs (.vPtr (some (.vStruct vs)))
                  (Options.withPrefix opts ⟨c, e, d, p, .ptrT (.structT anon fs)⟩) raw
                  = (.ok v1, m1) := h
              obtain ⟨ws, hws⟩ := parseStruct_shape_ptr rf fs vs _ raw v1 m1 h'
              subst hws
              exact parseStruct_I2 rf hrf2 fs (.vPtr (some (.vStruct vs))) _ raw
                (.vPtr (some (.vStruct ws))) m1 hfs h' raw₂
            | vStr s => exact absurd trivial (by simpa using hskip)
            | vInt n => exact absurd trivial (by simpa using hskip)
            | vPtr op2 => exact absurd trivial (by simpa using hskip)
            | vSlice es => exact absurd trivial (by simpa using hskip)
          | none => exact absurd trivial (by simpa using hskip)
        | vStr s => exact absurd trivial (by simpa using hskip)
        | vInt n => exact absurd trivial (by simpa using hskip)
        | vStruct vs => exact absurd trivial (by simpa using hskip)
        | vSlice es => exact absurd trivial (by simpa using hskip)
      | strT => exact absurd trivial (by simpa using hskip)
      | intT => exact absurd trivial (by simpa using hskip)
      | ptrT et2 => exact absurd trivial (by simpa using hskip)
      | sliceStructT fs2 => exact absurd trivial (by simpa using hskip)
    · exact absurd trivial hskip

/-- `initialisePointer` on a pointer-typed field never leaves a nil
pointer. -/
theorem initialisePointer_ptr_ne_nil (v : Val) (et : Ty) :
    initialisePointer v (.ptrT et) ≠ .vPtr none := by
  cases v with
  | vPtr op =>
    cases op with
    | none => simp [initialisePointer]
    | some x => simp [initialisePointer]
  | vStr s => simp [initialisePointer]
  | vInt n => simp [initialisePointer]
  | vStruct vs => simp [initialisePointer]
  | vSlice es => simp [initialisePointer]

/-- `parseSliceOfStructs` never turns a non-nil value into a nil
pointer. -/
theorem parseSliceOfStructs_ne_nil
    (rs : Val → Options → RawMap → (Except String Val) × RawMap)
    (fs : List FieldD) (v : Val) (opts0 : Options) (raw : RawMap) (w : Val) (raw₁ : RawMap)
    (hv : v ≠ .vPtr none)
    (h : parseSliceOfStructs rs fs v opts0 raw = (.ok w, raw₁)) :
    w ≠ .vPtr none := by
  rw [parseSliceOfStructs] at h
  split_ifs at h with he
  · have hw : v = w := by simpa using congrArg Prod.fst h
    rw [← hw]
    exact hv
  · split at h
    · exact absurd h (by simp)
    · rename_i res m heq
      have hw : updateReference v res = w := by simpa using congrArg Prod.fst h
      rw [← hw]
      cases v with
      | vPtr op =>
        cases op with
        | none => exact absurd rfl hv
        | some x => simp [updateReference]
      | vStr s => simp [updateReference]
      | vInt n => simp [updateReference]
      | vStruct vs => simp [updateReference]
      | vSlice es => simp [updateReference]

/-- The generic second run of `parseField`: once `handlePointerStruct`,
`setField`, `initialisePointer` and `handleStructOrSlice` each map the
first run's output to itself, the whole field binder does. -/
theorem parseField_rerun
    (n : Nat) (fd : FieldD) (w : Val) (opts : Options) (raw₂ : RawMap)
    (hcs : ¬ (!fd.canSet) = true)
    (hig : ¬ (parseFieldTags fd opts).Ignored = true)
    (hps : ∀ r₂ : RawMap,
        (handlePointerStruct (parseStruct (parseFields (parseField n))) w fd opts r₂).1
          = .ok w)
    (hsf : ∀ r₂ : RawMap,
        (setField w fd (parseFieldTags fd opts) opts r₂).1 = .ok w)
    (hip : initialisePointer w fd.ty = w)
    (hsos : ∀ r₂ : RawMap,
        (handleStructOrSlice (parseStruct (parseFields (parseField n)))
          (fun fs => parseSliceOfStructs (parseStruct (parseFields (parseField n)) fs) fs)
          w fd opts (parseFieldTags fd opts) r₂).1 = .ok w) :
    (parseField (n + 1) fd w opts raw₂).1 = .ok w := by
  rw [parseField, if_neg hcs]
  rcases hq : handlePointerStruct (parseStruct (parseFields (parseField n))) w fd opts raw₂
    with ⟨r, m⟩
  have hr : r = .ok w := by
    have hh := hps raw₂
    rw [hq] at hh
    exact hh
  subst hr
  simp only []
  rw [if_neg hig]
  rcases hq2 : setField w fd (parseFieldTags fd opts) opts m with ⟨sr, sk⟩
  have hsr : sr = .ok w := by
    have hh := hsf m
    rw [hq2] at hh
    exact hh
  subst hsr
  simp only []
  rw [hip]
  exact hsos sk

/-- The no-expand master: on fields whose tags never use `expand`, the
value computed by `parseField` does not depend on the raw-values map, and
a successful bind maps its own output to itself. -/
theorem parseField_noexpand : ∀ fuel : Nat,
    (∀ (fd : FieldD) (v : Val) (opts : Options) (raw raw' : RawMap), noExpandFD fd = true →
        (parseField fuel fd v opts raw).1 = (parseField fuel fd v opts raw').1)
    ∧ (∀ (fd : FieldD) (v : Val) (opts : Options) (raw : RawMap) (w : Val) (raw₁ : RawMap),
        noExpandFD fd = true →
        parseField fuel fd v opts raw = (.ok w, raw₁) →
        ∀ raw₂ : RawMap, (parseField fuel fd w opts raw₂).1 = .ok w) := by
  intro fuel
  induction fuel with
  | zero =>
    constructor
    · intro fd v opts raw raw' hne
      rfl
    · intro fd v opts raw w raw₁ hne h raw₂
      exact absurd h (by simp [parseField])
  | succ n ih =>
    have hF1 := parseFields_I1 (parseField n) ih.1
    have hF2 := parseFields_I2 (parseField n) ih.2
    have hS1 : ∀ fs v opts raw raw', noExpandFields fs = true →
        (parseStruct (parseFields (parseField n)) fs v opts raw).1
          = (parseStruct (parseFields (parseField n)) fs v opts raw').1 :=
      fun fs v opts raw raw' hfs => parseStruct_I1 _ hF1 fs v opts raw raw' hfs
    have hS2 : ∀ fs v opts raw w raw₁, noExpandFields fs = true →
        parseStruct (parseFields (parseField n)) fs v opts raw = (.ok w, raw₁) →
        ∀ raw₂, (parseStruct (parseFields (parseField n)) fs w opts raw₂).1 = .ok w :=
      fun fs v opts raw w raw₁ hfs h raw₂ =>
        parseStruct_I2 _ hF2 fs v opts raw w raw₁ hfs h raw₂
    have hSl1 : ∀ fs v opts raw raw', noExpandFields fs = true →
        (parseSliceOfStructs (parseStruct (parseFields (parseField n)) fs) fs v opts raw).1
          = (parseSliceOfStructs (parseStruct (parseFields (parseField n)) fs) fs v opts raw').1 :=
      fun fs v opts raw raw' hfs =>
        parseSliceOfStructs_I1 _ (fun v' o r r' => hS1 fs v' o r r' hfs) fs v opts raw raw'
    have hSl2 : ∀ fs v opts raw w raw₁, noExpandFields fs = true →
        parseSliceOfStructs (parseStruct (parseFields (parseField n)) fs) fs v opts raw
          = (.ok w, raw₁) →
        ∀ raw₂,
          (parseSliceOfStructs (parseStruct (parseFields (parseField n)) fs) fs w opts raw₂).1
            = .ok w :=
      fun fs v opts raw w raw₁ hfs h raw₂ =>
        parseSliceOfStructs_I2 _ (fun v' o r r' => hS1 fs v' o r r' hfs)
          (fun v' o r w' r₁ h' r₂ => hS2 fs v' o r w' r₁ hfs h' r₂) fs v opts raw w raw₁ h raw₂
    constructor
    · -- raw-map irrelevance
      intro fd v opts raw raw' hne
      rw [parseField, parseField]
      by_cases hcs : (!fd.canSet) = true
      · rw [if_pos hcs, if_pos hcs]
      · rw [if_neg hcs, if_neg hcs]
        rcases h1 : handlePointerStruct (parseStruct (parseFields (parseField n))) v fd opts raw
          with ⟨r1, m1⟩
        rcases h2 : handlePointerStruct (parseStruct (parseFields (parseField n))) v fd opts raw'
          with ⟨r2, m2⟩
        have hr : r1 = r2 := by
          have hh := handlePointerStruct_I1 _ hS1 v fd opts raw raw' hne
          rw [h1, h2] at hh
          exact hh
        subst hr
        cases r1 with
        | error e => rfl
        | ok v1 =>
          simp only []
          by_cases hig : (parseFieldTags fd opts).Ignored = true
          · rw [if_pos hig, if_pos hig]
          · rw [if_neg hig, if_neg hig]
            rcases h3 : setField v1 fd (parseFieldTags fd opts) opts m1 with ⟨s1, k1⟩
            rcases h4 : setField v1 fd (parseFieldTags fd opts) opts m2 with ⟨s2, k2⟩
            have hs : s1 = s2 := by
              have hh := setField_raw v1 fd (parseFieldTags fd opts) opts
                (noExpandFD_tags fd opts hne) m1 m2
              rw [h3, h4] at hh
              exact hh
            subst hs
            cases s1 with
            | error e => rfl
            | ok v2 =>
              simp only []
              exact handleStructOrSlice_I1 _ _ hS1 hSl1 (initialisePointer v2 fd.ty) fd opts
                (parseFieldTags fd opts) k1 k2 hne
    · -- idempotence
      intro fd v opts raw w raw₁ hne h raw₂
      rw [parseField] at h
      by_cases hcs : (!fd.canSet) = true
      · rw [if_pos hcs] at h
        have hw : v = w := by simpa using congrArg Prod.fst h
        subst hw
        rw [parseField, if_pos hcs]
      · rw [if_neg hcs] at h
        split at h
        · exact absurd h (by simp)
        · rename_i v1 m1 heq1
          by_cases hig : (parseFieldTags fd opts).Ignored = true
          · rw [if_pos hig] at h
            have hw : v1 = w := by simpa using congrArg Prod.fst h
            subst hw
            rw [parseField, if_neg hcs]
            rcases hq : handlePointerStruct (parseStruct (parseFields (parseField n))) v1 fd
              opts raw₂ with ⟨r, m⟩
            have hr : r = .ok v1 := by
              have hh := handlePointerStruct_I2 (parseFields (parseField n)) hF2 v fd opts raw
                v1 m1 hne heq1 raw₂
              rw [hq] at hh
              exact hh
            subst hr
            simp only []
            rw [if_pos hig]
          · rw [if_neg hig] at h
            split at h
            · exact absurd h (by simp)
            · rename_i v2 k1 heq2
              have hexp := noExpandFD_tags fd opts hne
              have hGo0 : setFieldGo v1 fd
                  (resolveValue (parseFieldTags fd opts) opts m1).1 = .ok v2 := by
                have hh := congrArg Prod.fst heq2
                simpa [setField_fst] using hh
              rcases hrv : (resolveValue (parseFieldTags fd opts) opts m1).1 with er | val
              · rw [hrv] at hGo0
                exact absurd hGo0 (by simp [setFieldGo])
              · rw [hrv] at hGo0
                have hres : ∀ raw' : RawMap,
                    (resolveValue (parseFieldTags fd opts) opts raw').1 = .ok val := by
                  intro raw'
                  rw [resolveValue_raw _ opts hexp raw' m1, hrv]
                have hsfAll : ∀ u : Val, setFieldGo u fd (.ok val) = .ok u →
                    ∀ r₂ : RawMap,
                      (setField u fd (parseFieldTags fd opts) opts r₂).1 = .ok u := by
                  intro u hu r₂
                  rw [setField_fst, hres r₂]
                  exact hu
                rcases fd with ⟨c, e, d, p, t⟩
                cases t with
                | strT =>
                  simp only [FieldD.ty] at h
                  rw [initialisePointer_nonptr v2 Ty.strT (fun et hx => Ty.noConfusion hx),
                    handleStructOrSlice_scalar _ _ v2 ⟨c, e, d, p, .strT⟩ opts _ k1
                      (Or.inl rfl)] at h
                  have hw : v2 = w := by simpa using congrArg Prod.fst h
                  subst hw
                  exact parseField_rerun n ⟨c, e, d, p, .strT⟩ v2 opts raw₂ hcs hig
                    (fun r₂ => by
                      rw [handlePointerStruct_skip _ v2 ⟨c, e, d, p, .strT⟩ opts r₂ trivial])
                    (hsfAll v2 (setFieldGo_idem v1 _ val v2 hGo0))
                    (initialisePointer_nonptr v2 Ty.strT (fun et hx => Ty.noConfusion hx))
                    (fun r₂ => by
                      rw [handleStructOrSlice_scalar _ _ v2 ⟨c, e, d, p, .strT⟩ opts _ r₂
                        (Or.inl rfl)])
                | intT =>
                  simp only [FieldD.ty] at h
                  rw [initialisePointer_nonptr v2 Ty.intT (fun et hx => Ty.noConfusion hx),
                    handleStructOrSlice_scalar _ _ v2 ⟨c, e, d, p, .intT⟩ opts _ k1
                      (Or.inr rfl)] at h
                  have hw : v2 = w := by simpa using congrArg Prod.fst h
                  subst hw
                  exact parseField_rerun n ⟨c, e, d, p, .intT⟩ v2 opts raw₂ hcs hig
                    (fun r₂ => by
                      rw [handlePointerStruct_skip _ v2 ⟨c, e, d, p, .intT⟩ opts r₂ trivial])
                    (hsfAll v2 (setFieldGo_idem v1 _ val v2 hGo0))
                    (initialisePointer_nonptr v2 Ty.intT (fun et hx => Ty.noConfusion hx))
                    (fun r₂ => by
                      rw [handleStructOrSlice_scalar _ _ v2 ⟨c, e, d, p, .intT⟩ opts _ r₂
                        (Or.inr rfl)])
                | sliceStructT fs =>
                  have hfs : noExpandFields fs = true := by
                    simp only [noExpandFD, noExpandTy, Bool.and_eq_true] at hne
                    exact hne.2
                  obtain ⟨hval, hv2⟩ :=
                    setFieldGo_big v1 ⟨c, e, d, p, .sliceStructT fs⟩ val v2 trivial hGo0
                  subst hval
                  subst hv2
                  simp only [FieldD.ty] at h
                  rw [initialisePointer_nonptr v2 (Ty.sliceStructT fs)
                      (fun et hx => Ty.noConfusion hx),
                    handleStructOrSlice_slice _ _ v2 ⟨c, e, d, p, .sliceStructT fs⟩ opts _ k1
                      fs (Or.inl rfl)] at h
                  have h' : parseSliceOfStructs (parseStruct (parseFields (parseField n)) fs)
                      fs v2 (Options.withPrefix opts ⟨c, e, d, p, .sliceStructT fs⟩) k1
                      = (.ok w, raw₁) := h
                  exact parseField_rerun n ⟨c, e, d, p, .sliceStructT fs⟩ w opts raw₂ hcs hig
                    (fun r₂ => by
                      rw [handlePointerStruct_skip _ w ⟨c, e, d, p, .sliceStructT fs⟩ opts r₂
                        trivial])
                    (hsfAll w rfl)
                    (initialisePointer_nonptr w (Ty.sliceStructT fs)
                      (fun et hx => Ty.noConfusion hx))
                    (fun r₂ => by
                      rw [handleStructOrSlice_slice _ _ w ⟨c, e, d, p, .sliceStructT fs⟩ opts
                        _ r₂ fs (Or.inl rfl)]
                      exact hSl2 fs v2 _ k1 w raw₁ hfs h' r₂)
                | ptrT et =>
                  cases et with
                  | strT =>
                    have hsfw : setFieldGo (initialisePointer v2 (Ty.ptrT Ty.strT))
                        ⟨c, e, d, p, .ptrT .strT⟩ (.ok val)
                        = .ok (initialisePointer v2 (Ty.ptrT Ty.strT)) := by
                      by_cases hval : val = ""
                      · subst hval
                        rfl
                      · obtain ⟨x, hx⟩ := setFieldGo_ptr_scalar v1 c e d p Ty.strT val v2
                          (Or.inl rfl) hval hGo0
                        have hinit : initialisePointer v2 (Ty.ptrT Ty.strT) = v2 :=
                          initialisePointer_not_nil v2 _ (by rw [hx]; simp)
                        rw [hinit]
                        exact setFieldGo_idem v1 _ val v2 hGo0
                    have hnn := initialisePointer_ptr_ne_nil v2 Ty.strT
                    simp only [FieldD.ty] at h
                    rw [handleStructOrSlice_ptr_inert _ _ _ ⟨c, e, d, p, .ptrT .strT⟩ opts _
                      k1 trivial hnn] at h
                    have hw : initialisePointer v2 (Ty.ptrT Ty.strT) = w := by
                      simpa using congrArg Prod.fst h
                    exact parseField_rerun n ⟨c, e, d, p, .ptrT .strT⟩ w opts raw₂ hcs hig
                      (fun r₂ => by
                        rw [handlePointerStruct_skip _ w ⟨c, e, d, p, .ptrT .strT⟩ opts r₂
                          trivial])
                      (hsfAll w (by rw [← hw]; exact hsfw))
                      (initialisePointer_not_nil w _ (by rw [← hw]; exact hnn))
                      (fun r₂ => by
                        rw [handleStructOrSlice_ptr_inert _ _ w ⟨c, e, d, p, .ptrT .strT⟩
                          opts _ r₂ trivial (by rw [← hw]; exact hnn)])
                  | intT =>
                    have hsfw : setFieldGo (initialisePointer v2 (Ty.ptrT Ty.intT))
                        ⟨c, e, d, p, .ptrT .intT⟩ (.ok val)
                        = .ok (initialisePointer v2 (Ty.ptrT Ty.intT)) := by
                      by_cases hval : val = ""
                      · subst hval
                        rfl
                      · obtain ⟨x, hx⟩ := setFieldGo_ptr_scalar v1 c e d p Ty.intT val v2
                          (Or.inr rfl) hval hGo0
                        have hinit : initialisePointer v2 (Ty.ptrT Ty.intT) = v2 :=
                          initialisePointer_not_nil v2 _ (by rw [hx]; simp)
                        rw [hinit]
                        exact setFieldGo_idem v1 _ val v2 hGo0
                    have hnn := initialisePointer_ptr_ne_nil v2 Ty.intT
                    simp only [FieldD.ty] at h
                    rw [handleStructOrSlice_ptr_inert _ _ _ ⟨c, e, d, p, .ptrT .intT⟩ opts _
                      k1 trivial hnn] at h
                    have hw : initialisePointer v2 (Ty.ptrT Ty.intT) = w := by
                      simpa using congrArg Prod.fst h
                    exact parseField_rerun n ⟨c, e, d, p, .ptrT .intT⟩ w opts raw₂ hcs hig
                      (fun r₂ => by
                        rw [handlePointerStruct_skip _ w ⟨c, e, d, p, .ptrT .intT⟩ opts r₂
                          trivial])
                      (hsfAll w (by rw [← hw]; exact hsfw))
                      (initialisePointer_not_nil w _ (by rw [← hw]; exact hnn))
                      (fun r₂ => by
                        rw [handleStructOrSlice_ptr_inert _ _ w ⟨c, e, d, p, .ptrT .intT⟩
                          opts _ r₂ trivial (by rw [← hw]; exact hnn)])
                  | ptrT et2 =>
                    obtain ⟨hval, hv2⟩ :=
                      setFieldGo_big v1 ⟨c, e, d, p, .ptrT (.ptrT et2)⟩ val v2 trivial hGo0
                    subst hval
                    have hnn := initialisePointer_ptr_ne_nil v2 (Ty.ptrT et2)
                    simp only [FieldD.ty] at h
                    rw [handleStructOrSlice_ptr_inert _ _ _ ⟨c, e, d, p, .ptrT (.ptrT et2)⟩
                      opts _ k1 trivial hnn] at h
                    have hw : initialisePointer v2 (Ty.ptrT (Ty.ptrT et2)) = w := by
                      simpa using congrArg Prod.fst h
                    exact parseField_rerun n ⟨c, e, d, p, .ptrT (.ptrT et2)⟩ w opts raw₂ hcs
                      hig
                      (fun r₂ => by
                        rw [handlePointerStruct_skip _ w ⟨c, e, d, p, .ptrT (.ptrT et2)⟩
                          opts r₂ trivial])
                      (hsfAll w rfl)
                      (initialisePointer_not_nil w _ (by rw [← hw]; exact hnn))
                      (fun r₂ => by
                        rw [handleStructOrSlice_ptr_inert _ _ w
                          ⟨c, e, d, p, .ptrT (.ptrT et2)⟩ opts _ r₂ trivial
                          (by rw [← hw]; exact hnn)])
                  | sliceStructT fs =>
                    have hfs : noExpandFields fs = true := by
                      simp only [noExpandFD, noExpandTy, Bool.and_eq_true] at hne
                      exact hne.2
                    obtain ⟨hval, hv2⟩ := setFieldGo_big v1
                      ⟨c, e, d, p, .ptrT (.sliceStructT fs)⟩ val v2 trivial hGo0
                    subst hval
                    have hnn := initialisePointer_ptr_ne_nil v2 (Ty.sliceStructT fs)
                    simp only [FieldD.ty] at h
                    rw [handleStructOrSlice_slice _ _ _
                      ⟨c, e, d, p, .ptrT (.sliceStructT fs)⟩ opts _ k1 fs (Or.inr rfl)] at h
                    have h' : parseSliceOfStructs (parseStruct (parseFields (parseField n)) fs)
                        fs (initialisePointer v2 (Ty.ptrT (Ty.sliceStructT fs)))
                        (Options.withPrefix opts ⟨c, e, d, p, .ptrT (.sliceStructT fs)⟩) k1
                        = (.ok w, raw₁) := h
                    have hwnn : w ≠ Val.vPtr none :=
                      parseSliceOfStructs_ne_nil _ fs _ _ k1 w raw₁ hnn h'
                    exact parseField_rerun n ⟨c, e, d, p, .ptrT (.sliceStructT fs)⟩ w opts
                      raw₂ hcs hig
                      (fun r₂ => by
                        rw [handlePointerStruct_skip _ w
                          ⟨c, e, d, p, .ptrT (.sliceStructT fs)⟩ opts r₂ trivial])
                      (hsfAll w rfl)
                      (initialisePointer_not_nil w _ hwnn)
                      (fun r₂ => by
                        rw [handleStructOrSlice_slice _ _ w
                          ⟨c, e, d, p, .ptrT (.sliceStructT fs)⟩ opts _ r₂ fs (Or.inr rfl)]
                        exact hSl2 fs _ _ k1 w raw₁ hfs h' r₂)
                  | structT anon fs =>
                    have hfs : noExpandFields fs = true := by
                      simp only [noExpandFD, noExpandTy, Bool.and_eq_true] at hne
                      exact hne.2
                    obtain ⟨hval, hv2⟩ := setFieldGo_big v1
                      ⟨c, e, d, p, .ptrT (.structT anon fs)⟩ val v2 trivial hGo0
                    subst hval
                    subst hv2
                    simp only [FieldD.ty] at h
                    cases v2 with
                    | vPtr op =>
                      cases op with
                      | none =>
                        have h' : parseStruct (parseFields (parseField n)) fs
                            (.vPtr (some (.vStruct (zeroFields fs))))
                            (Options.withPrefix opts ⟨c, e, d, p, .ptrT (.structT anon fs)⟩)
                            k1 = (.ok w, raw₁) := h
                        obtain ⟨ws, hws⟩ := parseStruct_shape_ptr _ fs _ _ k1 w raw₁ h'
                        subst hws
                        exact parseField_rerun n ⟨c, e, d, p, .ptrT (.structT anon fs)⟩
                          (.vPtr (some (.vStruct ws))) opts raw₂ hcs hig
                          (fun r₂ => hS2 fs _ _ k1 _ raw₁ hfs h' r₂)
                          (hsfAll _ rfl)
                          rfl
                          (fun r₂ => hS2 fs _ _ k1 _ raw₁ hfs h' r₂)
                      | some x =>
                        cases x with
                        | vStruct vs1 =>
                          have h' : parseStruct (parseFields (parseField n)) fs
                              (.vPtr (some (.vStruct vs1)))
                              (Options.withPrefix opts
                                ⟨c, e, d, p, .ptrT (.structT anon fs)⟩) k1
                              = (.ok w, raw₁) := h
                          obtain ⟨ws, hws⟩ := parseStruct_shape_ptr _ fs _ _ k1 w raw₁ h'
                          subst hws
                          exact parseField_rerun n ⟨c, e, d, p, .ptrT (.structT anon fs)⟩
                            (.vPtr (some (.vStruct ws))) opts raw₂ hcs hig
                            (fun r₂ => hS2 fs _ _ k1 _ raw₁ hfs h' r₂)
                            (hsfAll _ rfl)
                            rfl
                            (fun r₂ => hS2 fs _ _ k1 _ raw₁ hfs h' r₂)
                        | vStr s =>
                          have hw : Val.vPtr (some (Val.vStr s)) = w := by
                            have hh := congrArg Prod.fst h
                            simpa [handleStructOrSlice, isSliceOfStructs, FieldD.ty,
                              initialisePointer, apply_ite, ite_self] using hh
                          subst hw
                          exact parseField_rerun n ⟨c, e, d, p, .ptrT (.structT anon fs)⟩ _
                            opts raw₂ hcs hig (fun r₂ => rfl) (hsfAll _ rfl) rfl
                            (fun r₂ => by
                              simp [handleStructOrSlice, isSliceOfStructs, FieldD.ty,
                                apply_ite, ite_self])
                        | vInt n2 =>
                          have hw : Val.vPtr (some (Val.vInt n2)) = w := by
                            have hh := congrArg Prod.fst h
                            simpa [handleStructOrSlice, isSliceOfStructs, FieldD.ty,
                              initialisePointer, apply_ite, ite_self] using hh
                          subst hw
                          exact parseField_rerun n ⟨c, e, d, p, .ptrT (.structT anon fs)⟩ _
                            opts raw₂ hcs hig (fun r₂ => rfl) (hsfAll _ rfl) rfl
                            (fun r₂ => by
                              simp [handleStructOrSlice, isSliceOfStructs, FieldD.ty,
                                apply_ite, ite_self])
                        | vPtr op2 =>
                          have hw : Val.vPtr (some (Val.vPtr op2)) = w := by
                            have hh := congrArg Prod.fst h
                            simpa [handleStructOrSlice, isSliceOfStructs, FieldD.ty,
                              initialisePointer, apply_ite, ite_self] using hh
                          subst hw
                          exact parseField_rerun n ⟨c, e, d, p, .ptrT (.structT anon fs)⟩ _
                            opts raw₂ hcs hig (fun r₂ => rfl) (hsfAll _ rfl) rfl
                            (fun r₂ => by
                              simp [handleStructOrSlice, isSliceOfStructs, FieldD.ty,
                                apply_ite, ite_self])
                        | vSlice es =>
                          have hw : Val.vPtr (some (Val.vSlice es)) = w := by
                            have hh := congrArg Prod.fst h
                            simpa [handleStructOrSlice, isSliceOfStructs, FieldD.ty,
                              initialisePointer, apply_ite, ite_self] using hh
                          subst hw
                          exact parseField_rerun n ⟨c, e, d, p, .ptrT (.structT anon fs)⟩ _
                            opts raw₂ hcs hig (fun r₂ => rfl) (hsfAll _ rfl) rfl
                            (fun r₂ => by
                              simp [handleStructOrSlice, isSliceOfStructs, FieldD.ty,
                                apply_ite, ite_self])
                    | vStr s =>
                      have hw : Val.vStr s = w := by
                        have hh := congrArg Prod.fst h
                        simpa [handleStructOrSlice, isSliceOfStructs, FieldD.ty,
                          initialisePointer, apply_ite, ite_self] using hh
                      subst hw
                      exact parseField_rerun n ⟨c, e, d, p, .ptrT (.structT anon fs)⟩ _ opts
                        raw₂ hcs hig (fun r₂ => rfl) (hsfAll _ rfl) rfl
                        (fun r₂ => by
                          simp [handleStructOrSlice, isSliceOfStructs, FieldD.ty, apply_ite,
                            ite_self])
                    | vInt n2 =>
                      have hw : Val.vInt n2 = w := by
                        have hh := congrArg Prod.fst h
                        simpa [handleStructOrSlice, isSliceOfStructs, FieldD.ty,
                          initialisePointer, apply_ite, ite_self] using hh
                      subst hw
                      exact parseField_rerun n ⟨c, e, d, p, .ptrT (.structT anon fs)⟩ _ opts
                        raw₂ hcs hig (fun r₂ => rfl) (hsfAll _ rfl) rfl
                        (fun r₂ => by
                          simp [handleStructOrSlice, isSliceOfStructs, FieldD.ty, apply_ite,
                            ite_self])
                    | vStruct vs =>
                      have hw : Val.vStruct vs = w := by
                        have hh := congrArg Prod.fst h
                        simpa [handleStructOrSlice, isSliceOfStructs, FieldD.ty,
                          initialisePointer, apply_ite, ite_self] using hh
                      subst hw
                      exact parseField_rerun n ⟨c, e, d, p, .ptrT (.structT anon fs)⟩ _ opts
                        raw₂ hcs hig (fun r₂ => rfl) (hsfAll _ rfl) rfl
                        (fun r₂ => by
                          simp [handleStructOrSlice, isSliceOfStructs, FieldD.ty, apply_ite,
                            ite_self])
                    | vSlice es =>
                      have hw : Val.vSlice es = w := by
                        have hh := congrArg Prod.fst h
                        simpa [handleStructOrSlice, isSliceOfStructs, FieldD.ty,
                          initialisePointer, apply_ite, ite_self] using hh
                      subst hw
                      exact parseField_rerun n ⟨c, e, d, p, .ptrT (.structT anon fs)⟩ _ opts
                        raw₂ hcs hig (fun r₂ => rfl) (hsfAll _ rfl) rfl
                        (fun r₂ => by
                          simp [handleStructOrSlice, isSliceOfStructs, FieldD.ty, apply_ite,
                            ite_self])
                | structT anon fs =>
                  have hfs : noExpandFields fs = true := by
                    simp only [noExpandFD, noExpandTy, Bool.and_eq_true] at hne
                    exact hne.2
                  obtain ⟨hval, hv2⟩ :=
                    setFieldGo_big v1 ⟨c, e, d, p, .structT anon fs⟩ val v2 trivial hGo0
                  subst hval
                  subst hv2
                  simp only [FieldD.ty] at h
                  cases v2 with
                  | vStruct vs1 =>
                    have h' : parseStruct (parseFields (parseField n)) fs (.vStruct vs1)
                        (Options.withPrefix opts ⟨c, e, d, p, .structT anon fs⟩) k1
                        = (.ok w, raw₁) := h
                    obtain ⟨ws, hws⟩ := parseStruct_shape_struct _ fs vs1 _ k1 w raw₁ h'
                    subst hws
                    have hps : ∀ r₂ : RawMap,
                        (handlePointerStruct (parseStruct (parseFields (parseField n)))
                          (Val.vStruct ws) ⟨c, e, d, p, .structT anon fs⟩ opts r₂).1
                          = .ok (Val.vStruct ws) := by
                      intro r₂
                      cases anon with
                      | false =>
                        rw [handlePointerStruct_skip _ _ ⟨c, e, d, p, .structT false fs⟩
                          opts r₂ trivial]
                      | true => exact hS2 fs _ _ k1 _ raw₁ hfs h' r₂
                    exact parseField_rerun n ⟨c, e, d, p, .structT anon fs⟩ (.vStruct ws)
                      opts raw₂ hcs hig hps (hsfAll _ rfl) rfl
                      (fun r₂ => hS2 fs _ _ k1 _ raw₁ hfs h' r₂)
                  | vStr s =>
                    have hw : Val.vStr s = w := by
                      have hh := congrArg Prod.fst h
                      simpa [handleStructOrSlice, isSliceOfStructs, FieldD.ty,
                        initialisePointer, apply_ite, ite_self] using hh
                    subst hw
                    exact parseField_rerun n ⟨c, e, d, p, .structT anon fs⟩ _ opts raw₂ hcs
                      hig (fun r₂ => rfl) (hsfAll _ rfl) rfl
                      (fun r₂ => by
                        simp [handleStructOrSlice, isSliceOfStructs, FieldD.ty, apply_ite,
                          ite_self])
                  | vInt n2 =>
                    have hw : Val.vInt n2 = w := by
                      have hh := congrArg Prod.fst h
                      simpa [handleStructOrSlice, isSliceOfStructs, FieldD.ty,
                        initialisePointer, apply_ite, ite_self] using hh
                    subst hw
                    exact parseField_rerun n ⟨c, e, d, p, .structT anon fs⟩ _ opts raw₂ hcs
                      hig (fun r₂ => rfl) (hsfAll _ rfl) rfl
                      (fun r₂ => by
                        simp [handleStructOrSlice, isSliceOfStructs, FieldD.ty, apply_ite,
                          ite_self])
                  | vSlice es =>
                    have hw : Val.vSlice es = w := by
                      have hh := congrArg Prod.fst h
                      simpa [handleStructOrSlice, isSliceOfStructs, FieldD.ty,
                        initialisePointer, apply_ite, ite_self] using hh
                    subst hw
                    exact parseField_rerun n ⟨c, e, d, p, .structT anon fs⟩ _ opts raw₂ hcs
                      hig (fun r₂ => rfl) (hsfAll _ rfl) rfl
                      (fun r₂ => by
                        simp [handleStructOrSlice, isSliceOfStructs, FieldD.ty, apply_ite,
                          ite_self])
                  | vPtr op =>
                    cases op with
                    | none =>
                      have hw : Val.vPtr none = w := by
                        have hh := congrArg Prod.fst h
                        simpa [handleStructOrSlice, isSliceOfStructs, FieldD.ty,
                          initialisePointer, apply_ite, ite_self] using hh
                      subst hw
                      exact parseField_rerun n ⟨c, e, d, p, .structT anon fs⟩ _ opts raw₂
                        hcs hig (fun r₂ => rfl) (hsfAll _ rfl) rfl
                        (fun r₂ => by
                          simp [handleStructOrSlice, isSliceOfStructs, FieldD.ty, apply_ite,
                            ite_self])
                    | some x =>
                      cases x with
                      | vStr s2 =>
                        have hw : Val.vPtr (some (Val.vStr s2)) = w := by
                          have hh := congrArg Prod.fst h
                          simpa [handleStructOrSlice, isSliceOfStructs, FieldD.ty,
                            initialisePointer, apply_ite, ite_self] using hh
                        subst hw
                        exact parseField_rerun n ⟨c, e, d, p, .structT anon fs⟩ _ opts raw₂
                          hcs hig (fun r₂ => rfl) (hsfAll _ rfl) rfl
                          (fun r₂ => by
                            simp [handleStructOrSlice, isSliceOfStructs, FieldD.ty, apply_ite,
                              ite_self])
                      | vInt n3 =>
                        have hw : Val.vPtr (some (Val.vInt n3)) = w := by
                          have hh := congrArg Prod.fst h
                          simpa [handleStructOrSlice, isSliceOfStructs, FieldD.ty,
                            initialisePointer, apply_ite, ite_self] using hh
                        subst hw
                        exact parseField_rerun n ⟨c, e, d, p, .structT anon fs⟩ _ opts raw₂
                          hcs hig (fun r₂ => rfl) (hsfAll _ rfl) rfl
                          (fun r₂ => by
                            simp [handleStructOrSlice, isSliceOfStructs, FieldD.ty, apply_ite,
                              ite_self])
                      | vStruct vs2 =>
                        have hw : Val.vPtr (some (Val.vStruct vs2)) = w := by
                          have hh := congrArg Prod.fst h
                          simpa [handleStructOrSlice, isSliceOfStructs, FieldD.ty,
                            initialisePointer, apply_ite, ite_self] using hh
                        subst hw
                        exact parseField_rerun n ⟨c, e, d, p, .structT anon fs⟩ _ opts raw₂
                          hcs hig (fun r₂ => rfl) (hsfAll _ rfl) rfl
                          (fun r₂ => by
                            simp [handleStructOrSlice, isSliceOfStructs, FieldD.ty, apply_ite,
                              ite_self])
                      | vPtr op3 =>
                        have hw : Val.vPtr (some (Val.vPtr op3)) = w := by
                          have hh := congrArg Prod.fst h
                          simpa [handleStructOrSlice, isSliceOfStructs, FieldD.ty,
                            initialisePointer, apply_ite, ite_self] using hh
                        subst hw
                        exact parseField_rerun n ⟨c, e, d, p, .structT anon fs⟩ _ opts raw₂
                          hcs hig (fun r₂ => rfl) (hsfAll _ rfl) rfl
                          (fun r₂ => by
                            simp [handleStructOrSlice, isSliceOfStructs, FieldD.ty, apply_ite,
                              ite_self])
                      | vSlice es2 =>
                        have hw : Val.vPtr (some (Val.vSlice es2)) = w := by
                          have hh := congrArg Prod.fst h
                          simpa [handleStructOrSlice, isSliceOfStructs, FieldD.ty,
                            initialisePointer, apply_ite, ite_self] using hh
                        subst hw
                        exact parseField_rerun n ⟨c, e, d, p, .structT anon fs⟩ _ opts raw₂
                          hcs hig (fun r₂ => rfl) (hsfAll _ rfl) rfl
                          (fun r₂ => by
                            simp [handleStructOrSlice, isSliceOfStructs, FieldD.ty, apply_ite,
                              ite_self])

/-! ## Claim C9: idempotence of binding -/

/-- **C9, counterexample.**  The claim says re-binding the output of a
successful bind always succeeds with an identical struct.  For a struct
with one field `P *struct{ Host string `env:"HOST"` }` tagged
`env:"P,expand" envDefault:"${HOST}" envPrefix:"P_"` under the mapping
`{P_HOST: p}`, the first bind succeeds (the pointer is nil when `setField`
runs, the default expands to the empty string, and the allocated struct
is then bound).  Re-binding the output fails with `unsupported type`: the
pointer is now non-nil, `handlePointerStruct` first re-binds the inner
struct filling the shared raw-values map, the `${HOST}` default then
expands to a non-empty value, and `setField` tries to write it through a
pointer-to-struct field, which no parser accepts. -/
theorem c9_counterexample :
    parseStructM 5
      [.mk true (some "P,expand") "${HOST}" (some "P_")
        (.ptrT (.structT false [.mk true (some "HOST") "" none .strT]))]
      (.vStruct [.vPtr none]) ⟨[("P_HOST", "p")], "", true, 3⟩ []
      = (.ok (.vStruct [.vPtr (some (.vStruct [.vStr "p"]))]),
          [("HOST", "p"), ("P", "")])
    ∧ parseStructM 5
        [.mk true (some "P,expand") "${HOST}" (some "P_")
          (.ptrT (.structT false [.mk true (some "HOST") "" none .strT]))]
        (.vStruct [.vPtr (some (.vStruct [.vStr "p"]))]) ⟨[("P_HOST", "p")], "", true, 3⟩ []
        = (.error "unsupported type", [("P", "p"), ("HOST", "p")]) :=
  ⟨rfl, rfl⟩

/-- **C9, amended.**  Binding is idempotent on the expand-free fragment:
for every struct shape none of whose fields (at any nesting depth) uses
the `expand` tag option, a successful bind of `S` yielding `S'` re-binds
`S'` to exactly `S'` under the same mapping and prefix, whatever the state
of the raw-values map.  (With `expand` the claim fails, see the
counterexample: expansion reads the raw-values map, whose contents differ
between the two runs because a non-nil pointer is re-bound before its
owner's tags are resolved.) -/
theorem c9_amended :
    ∀ (fuel : Nat) (fs : List FieldD) (S : Val) (opts : Options) (raw raw₁ : RawMap)
      (S2 : Val),
      noExpandFields fs = true →
      parseStructM fuel fs S opts raw = (.ok S2, raw₁) →
      ∀ raw₂ : RawMap, (parseStructM fuel fs S2 opts raw₂).1 = .ok S2 := by
  intro fuel fs S opts raw raw₁ S2 hfs h raw₂
  exact parseStruct_I2 _ (parseFields_I2 (parseField fuel) (parseField_noexpand fuel).2)
    fs S opts raw S2 raw₁ hfs h raw₂

/-- **C9, witness.**  The amended idempotence applied to a concrete
expand-free bind: `HOST` binds to `h`, and re-binding the output yields it
unchanged. -/
theorem c9_witness :
    (parseStructM 1 [.mk true (some "HOST") "" none .strT]
      (.vStruct [.vStr "h"]) ⟨[("HOST", "h")], "", true, 0⟩ []).1
      = .ok (.vStruct [.vStr "h"]) :=
  c9_amended 1 [.mk true (some "HOST") "" none .strT] (.vStruct [.vStr ""])
    ⟨[("HOST", "h")], "", true, 0⟩ [] [("HOST", "h")] (.vStruct [.vStr "h"]) rfl rfl []

end UtilsGoEnv
